import Mathlib

/-!
Verification development for the Filament-Sync repository.

The JavaScript sources are embedded shallowly:
* JSON-compatible JavaScript values become the mutual inductive types
  `JVal`/`JArr`/`JObj` (objects keep their fields in insertion order,
  like JS objects; JSON numbers are modelled as integers, which covers
  every value the tool manipulates — ids, counts, flags; `undefined` is
  a distinguished value so that missing-property access is modelled
  faithfully).
* `src/tools/config.js` : notes handling, the FNV-1a derived id,
  type derivation from inheritance names, profile filtering.
* `fix-creality-base-filaments.js` (shipped in the repository next to
  `user-config.js`) : the preset resolver (value normalisation, the
  three-layer merge, the truncation classification).
* `src/tools/database-tool.js` : `getList`, `findById`,
  `buildMaterialFromProfile` and the reconciliation loop of
  `addToDatabase`.  File I/O and SSH are outside the model; the
  baseline document, the profile list and the version stamp are
  parameters, and `newMaterial.json` — a data file that is not part of
  the sources — is a parameter `tmpl` of the functions that clone it.
* `src/tools/options-tool.js` : the options-document reconciliation.
-/

mutual

/-- JavaScript/JSON values.  Numbers are modelled as integers: every
number the tool produces or compares is an integer, and fractional JSON
numbers play no role in any claim. -/
inductive JVal where
  | str (s : String)
  | num (n : Int)
  | bool (b : Bool)
  | null
  | undef
  | arr (elems : JArr)
  | obj (fields : JObj)

/-- A JS array of values. -/
inductive JArr where
  | nil
  | cons (head : JVal) (tail : JArr)

/-- A JS object: fields in insertion order, keys unique as produced by
`JSON.parse`. -/
inductive JObj where
  | nil
  | cons (key : String) (val : JVal) (tail : JObj)

end

/-- The elements of a JS array, as a Lean list. -/
def JArr.toList : JArr → List JVal
  | JArr.nil => []
  | JArr.cons v rest => v :: rest.toList

/-- A JS array with the given elements. -/
def JArr.ofList : List JVal → JArr
  | [] => JArr.nil
  | v :: rest => JArr.cons v (JArr.ofList rest)

/-- `Object.keys(o).length` for an object with unique keys. -/
def JObj.size : JObj → Nat
  | JObj.nil => 0
  | JObj.cons _ _ rest => rest.size + 1

/-- First value bound to key `k` (JS object property lookup). -/
def lookupField : JObj → String → Option JVal
  | JObj.nil, _ => none
  | JObj.cons k' v rest, k => if k' = k then some v else lookupField rest k

/-- JS property assignment `o[k] = v`: replace the value at an existing
key (keeping its position) or append a new key at the end. -/
def updateField : JObj → String → JVal → JObj
  | JObj.nil, k, v => JObj.cons k v JObj.nil
  | JObj.cons k' v' rest, k, v =>
      if k' = k then JObj.cons k v rest else JObj.cons k' v' (updateField rest k v)

/-- JS property access `v?.[k]` / `v[k]`: `undefined` on non-objects and
missing keys. -/
def getProp (v : JVal) (k : String) : JVal :=
  match v with
  | JVal.obj fields => (lookupField fields k).getD JVal.undef
  | _ => JVal.undef

/-- JS truthiness. -/
def truthy : JVal → Bool
  | JVal.str s => s ≠ ""
  | JVal.num n => n ≠ 0
  | JVal.bool b => b
  | JVal.null => false
  | JVal.undef => false
  | JVal.arr _ => true
  | JVal.obj _ => true

/-- `unwrapFirst` of database-tool.js and `safeFirst` of config.js:
`Array.isArray(v) ? v[0] : v` (`v[0]` of an empty array is `undefined`). -/
def unwrapFirst : JVal → JVal
  | JVal.arr JArr.nil => JVal.undef
  | JVal.arr (JArr.cons v _) => v
  | v => v

/-- `safeFirst` of config.js is the same operation as `unwrapFirst`. -/
def safeFirst : JVal → JVal := unwrapFirst

/-- Decimal digit character. -/
def digitChar (d : Nat) : Char := Char.ofNat (48 + d)

/-- Fueled decimal printing of a natural number (most significant digit
first); fuel `n + 1` always suffices. -/
def natToDecAux : Nat → Nat → List Char
  | 0, _ => []
  | fuel + 1, n =>
      if n < 10 then [digitChar n]
      else natToDecAux fuel (n / 10) ++ [digitChar (n % 10)]

/-- Decimal representation of a natural number, as JS `String(n)`
produces for a non-negative integral number. -/
def natToDec (n : Nat) : String := String.mk (natToDecAux (n + 1) n)

/-- Decimal representation of an integer, as JS `String(i)` produces for
an integral number. -/
def intToDec (i : Int) : String :=
  if i < 0 then "-" ++ natToDec i.natAbs else natToDec i.natAbs

/-- JS `String(v)` for non-array values. -/
def jsToStringScalar : JVal → String
  | JVal.str s => s
  | JVal.num n => intToDec n
  | JVal.bool b => cond b "true" "false"
  | JVal.null => "null"
  | JVal.undef => "undefined"
  | JVal.arr _ => ""
  | JVal.obj _ => "[object Object]"

mutual

/-- JS `String(v)` conversion.  Arrays are joined like
`Array.prototype.join(",")`.  (Each Unicode scalar value counts as one
unit; this agrees with JS for all strings without surrogate pairs.) -/
def jsToString : JVal → String
  | JVal.arr elems => String.intercalate "," (jsToStringParts elems)
  | v => jsToStringScalar v

/-- The stringified elements of an array (JS join: `null`/`undefined`
elements become empty strings). -/
def jsToStringParts : JArr → List String
  | JArr.nil => []
  | JArr.cons JVal.null rest => "" :: jsToStringParts rest
  | JArr.cons JVal.undef rest => "" :: jsToStringParts rest
  | JArr.cons (JVal.arr vs) rest =>
      String.intercalate "," (jsToStringParts vs) :: jsToStringParts rest
  | JArr.cons v rest => jsToStringScalar v :: jsToStringParts rest

end

/-- Hexadecimal digit character (lower case), for string escapes. -/
def hexChar (d : Nat) : Char := if d < 10 then digitChar d else Char.ofNat (87 + d)

/-- JSON escape of a single character, as `JSON.stringify` emits it. -/
def jsonEscChar (c : Char) : String :=
  if c = '"' then "\\\""
  else if c = '\\' then "\\\\"
  else if c = '\n' then "\\n"
  else if c = '\r' then "\\r"
  else if c = '\t' then "\\t"
  else if c = '\x08' then "\\b"
  else if c = '\x0c' then "\\f"
  else if c.toNat < 32 then
    "\\u00" ++ String.mk [hexChar (c.toNat / 16), hexChar (c.toNat % 16)]
  else String.mk [c]

/-- A JSON string literal for `s`. -/
def jsonQuote (s : String) : String :=
  "\"" ++ String.join (s.toList.map jsonEscChar) ++ "\""

mutual

/-- `JSON.stringify(v)` (compact form, no indentation), as used for the
notes blobs.  An `undefined` is rendered as `null`; the tool never
stringifies a value containing `undefined`. -/
def jsonStringify : JVal → String
  | JVal.str s => jsonQuote s
  | JVal.num n => intToDec n
  | JVal.bool b => cond b "true" "false"
  | JVal.null => "null"
  | JVal.undef => "null"
  | JVal.arr vs => "[" ++ String.intercalate "," (jsonArrParts vs) ++ "]"
  | JVal.obj fs => "\x7b" ++ String.intercalate "," (jsonObjParts fs) ++ "\x7d"

/-- Serialized elements of an array. -/
def jsonArrParts : JArr → List String
  | JArr.nil => []
  | JArr.cons v rest => jsonStringify v :: jsonArrParts rest

/-- Serialized members of an object. -/
def jsonObjParts : JObj → List String
  | JObj.nil => []
  | JObj.cons k v rest => (jsonQuote k ++ ":" ++ jsonStringify v) :: jsonObjParts rest

end

/-- Consume an expected literal prefix, returning the remainder. -/
def matchLit : List Char → List Char → Option (List Char)
  | [], cs => some cs
  | _, [] => none
  | a :: as, c :: cs => if a = c then matchLit as cs else none

/-- Skip JSON whitespace. -/
def skipWs (cs : List Char) : List Char :=
  cs.dropWhile fun c => c = ' ' || c = '\t' || c = '\n' || c = '\r'

/-- Numeric value of a hexadecimal digit. -/
def hexDigitVal (c : Char) : Option Nat :=
  if c.isDigit then some (c.toNat - 48)
  else if 'a' ≤ c ∧ c ≤ 'f' then some (c.toNat - 87)
  else if 'A' ≤ c ∧ c ≤ 'F' then some (c.toNat - 55)
  else none

/-- Parse the body of a JSON string (after the opening quote), returning
its characters and the input after the closing quote. -/
def parseStrAux : Nat → List Char → Option (List Char × List Char)
  | 0, _ => none
  | fuel + 1, cs =>
    match cs with
    | [] => none
    | '"' :: rest => some ([], rest)
    | '\\' :: rest =>
      match rest with
      | 'u' :: h1 :: h2 :: h3 :: h4 :: rest2 =>
        match hexDigitVal h1, hexDigitVal h2, hexDigitVal h3, hexDigitVal h4 with
        | some a, some b, some c, some d =>
            (parseStrAux fuel rest2).map fun r =>
              (Char.ofNat (((a * 16 + b) * 16 + c) * 16 + d) :: r.1, r.2)
        | _, _, _, _ => none
      | e :: rest2 =>
        let ec : Option Char :=
          if e = '"' then some '"'
          else if e = '\\' then some '\\'
          else if e = '/' then some '/'
          else if e = 'n' then some '\n'
          else if e = 't' then some '\t'
          else if e = 'r' then some '\r'
          else if e = 'b' then some '\x08'
          else if e = 'f' then some '\x0c'
          else none
        match ec with
        | some c => (parseStrAux fuel rest2).map fun r => (c :: r.1, r.2)
        | none => none
      | [] => none
    | c :: rest => (parseStrAux fuel rest).map fun r => (c :: r.1, r.2)

/-- Natural number denoted by a list of decimal digits. -/
def digitsToNat (ds : List Char) : Nat :=
  ds.foldl (fun a c => a * 10 + (c.toNat - 48)) 0

/-- Parse the digits of a JSON number.  Fractional and exponent numerals
are outside the integer model and are rejected. -/
def parseNumTail (cs : List Char) : Option (Nat × List Char) :=
  let ds := cs.takeWhile Char.isDigit
  if ds.isEmpty then none
  else
    let rest := cs.drop ds.length
    match rest with
    | '.' :: _ => none
    | 'e' :: _ => none
    | 'E' :: _ => none
    | _ => some (digitsToNat ds, rest)

mutual

/-- Parse one JSON value (fueled recursive-descent). -/
def parseVal : Nat → List Char → Option (JVal × List Char)
  | 0, _ => none
  | fuel + 1, cs0 =>
    match skipWs cs0 with
    | [] => none
    | '"' :: rest =>
        (parseStrAux (rest.length + 1) rest).map fun r => (JVal.str (String.mk r.1), r.2)
    | 't' :: rest => (matchLit ['r', 'u', 'e'] rest).map fun r => (JVal.bool true, r)
    | 'f' :: rest => (matchLit ['a', 'l', 's', 'e'] rest).map fun r => (JVal.bool false, r)
    | 'n' :: rest => (matchLit ['u', 'l', 'l'] rest).map fun r => (JVal.null, r)
    | '[' :: rest => parseElems fuel rest []
    | '\x7b' :: rest => parseMembers fuel rest JObj.nil
    | '-' :: rest =>
        match parseNumTail rest with
        | some (n, r) => some (JVal.num (-(n : Int)), r)
        | none => none
    | c :: rest =>
        match parseNumTail (c :: rest) with
        | some (n, r) => some (JVal.num (n : Int), r)
        | none => none

/-- Parse the elements of an array (after `[` or after a `,`). -/
def parseElems : Nat → List Char → List JVal → Option (JVal × List Char)
  | 0, _, _ => none
  | fuel + 1, cs, acc =>
    match acc, skipWs cs with
    | [], ']' :: rest => some (JVal.arr JArr.nil, rest)
    | _, cs1 =>
      match parseVal fuel cs1 with
      | none => none
      | some (v, r1) =>
        match skipWs r1 with
        | ',' :: r2 => parseElems fuel r2 (v :: acc)
        | ']' :: r2 => some (JVal.arr (JArr.ofList (v :: acc).reverse), r2)
        | _ => none

/-- Parse the members of an object (after the opening brace or after a
`,`).  A duplicated key overwrites the earlier value in place, as
`JSON.parse` does. -/
def parseMembers : Nat → List Char → JObj → Option (JVal × List Char)
  | 0, _, _ => none
  | fuel + 1, cs, acc =>
    match acc, skipWs cs with
    | JObj.nil, '\x7d' :: rest => some (JVal.obj JObj.nil, rest)
    | _, cs1 =>
      match cs1 with
      | '"' :: rest =>
        match parseStrAux (rest.length + 1) rest with
        | none => none
        | some (kcs, r1) =>
          match skipWs r1 with
          | ':' :: r2 =>
            match parseVal fuel r2 with
            | none => none
            | some (v, r3) =>
              let acc2 := updateField acc (String.mk kcs) v
              match skipWs r3 with
              | ',' :: r4 => parseMembers fuel r4 acc2
              | '\x7d' :: r4 => some (JVal.obj acc2, r4)
              | _ => none
          | _ => none
      | _ => none

end

/-- `JSON.parse` : `none` models a thrown `SyntaxError`. -/
def jsonParse (s : String) : Option JVal :=
  let cs := s.toList
  match parseVal (4 * cs.length + 8) cs with
  | some (v, rest) => if (skipWs rest).isEmpty then some v else none
  | none => none

/-! ## config.js — notes handling and identity derivation -/

/-- JS `String.prototype.trim()` (ASCII whitespace; the tool's data
never contains the exotic Unicode space characters JS also trims). -/
def jsTrim (s : String) : String :=
  String.mk (((s.toList.dropWhile Char.isWhitespace).reverse.dropWhile Char.isWhitespace).reverse)

/-- JS `String.prototype.toLowerCase()` (ASCII case mapping). -/
def jsToLower (s : String) : String := String.mk (s.toList.map Char.toLower)

/-- `getNotesString` (identical in config.js, database-tool.js and
options-tool.js): the notes blob as a string (`String(notes[0] ?? '')`
when stored wrapped in an array). -/
def getNotesString (profile : JVal) : String :=
  match getProp profile "filament_notes" with
  | JVal.arr JArr.nil => ""
  | JVal.arr (JArr.cons JVal.null _) => ""
  | JVal.arr (JArr.cons JVal.undef _) => ""
  | JVal.arr (JArr.cons v _) => jsToString v
  | JVal.str s => s
  | _ => ""

/-- `notesLooksEmpty` of config.js. -/
def notesLooksEmpty (notesStr : String) : Bool :=
  let t := jsTrim notesStr
  t == "" || t == "\"\""

/-- The unsigned 32-bit residue of the FNV-1a hash state of
`stableFiveDigitId`, after `h ^= charCode; h = Math.imul(h, 0x01000193)`
for each character.  (`Math.imul` and `^` operate on 32-bit values; the
signed JS value and this value agree modulo 2^32.) -/
def fnv1aU (s : String) : Nat :=
  s.toList.foldl (fun h c => ((h ^^^ c.toNat) * 0x01000193) % 4294967296) 0x811c9dc5

/-- `Math.abs` of the signed 32-bit reading of an unsigned residue. -/
def absInt32 (h : Nat) : Nat :=
  if h < 2147483648 then h else 4294967296 - h

/-- The numeric id of `stableFiveDigitId`: `Math.abs(h) % 90000 + 10000`.
For the empty string no 32-bit coercion ever runs, so `Math.abs` sees
the raw initial constant 0x811c9dc5 rather than its signed reading. -/
def stableFiveDigitIdNum (s : String) : Nat :=
  let h := fnv1aU s
  let a := if s.isEmpty then h else absInt32 h
  a % 90000 + 10000

/-- `stableFiveDigitId` of config.js: `String((Math.abs(h) % 90000) + 10000)`. -/
def stableFiveDigitId (s : String) : String :=
  natToDec (stableFiveDigitIdNum s)

/-- Character class `[a-z0-9_]` of the extraction pattern. -/
def isTypeChar (c : Char) : Bool := c.isLower || c.isDigit || c == '_'

/-- Leftmost match of the regular expression `fdm_filament_([a-z0-9_]+)`
in a list of characters: the capture group of the first position where
the literal matches and is followed by at least one class character. -/
def findFdmMatch : List Char → Option (List Char)
  | [] => none
  | c :: rest =>
    match matchLit "fdm_filament_".toList (c :: rest) with
    | some after =>
        let grp := after.takeWhile isTypeChar
        if grp.isEmpty then findFdmMatch rest else some grp
    | none => findFdmMatch rest

/-- `deriveTypeFromInherits` of config.js: lower-case the inheritance
name, search for `fdm_filament_([a-z0-9_]+)`, and upper-case the capture
group; empty string when there is no match. -/
def deriveTypeFromInherits (inherits : JVal) : String :=
  let s0 := match inherits with
    | JVal.null => ""
    | JVal.undef => ""
    | v => jsToString v
  let s := jsToLower s0
  match findFdmMatch s.toList with
  | none => ""
  | some grp => String.mk (grp.map Char.toUpper)

/-- The notes record `{id, vendor, type, name}` that `autoGenerateNotes`
of config.js builds for a profile. -/
def autoNotesObj (profile : JVal) : JObj :=
  let nameV := safeFirst (getProp profile "name")
  let name := if truthy nameV then nameV else JVal.str "Custom Filament"
  let vendorV := safeFirst (getProp profile "filament_vendor")
  let vendor := if truthy vendorV then vendorV else JVal.str "Custom"
  let typeV := safeFirst (getProp profile "filament_type")
  let typeJ :=
    if truthy typeV then typeV
    else
      let d := deriveTypeFromInherits (safeFirst (getProp profile "inherits"))
      if d = "" then JVal.str "CUSTOM" else JVal.str d
  let id := stableFiveDigitId (jsToString vendor ++ "|" ++ jsToString typeJ ++ "|" ++ jsToString name)
  JObj.cons "id" (JVal.str id)
    (JObj.cons "vendor" vendor (JObj.cons "type" typeJ (JObj.cons "name" name JObj.nil)))

/-- `autoGenerateNotes` of config.js: store the serialized synthesized
notes record back into the profile (wrapped in a one-element array). -/
def autoGenerateNotes (profile : JVal) : JVal :=
  match profile with
  | JVal.obj fs =>
      JVal.obj (updateField fs "filament_notes"
        (JVal.arr (JArr.cons (JVal.str (jsonStringify (JVal.obj (autoNotesObj profile)))) JArr.nil)))
  | v => v

/-- `hasRequiredNotes` of config.js: the notes string is not
empty-looking and parses as JSON. -/
def hasRequiredNotes (profile : JVal) : Bool :=
  let notesStr := getNotesString profile
  if notesLooksEmpty notesStr then false
  else (jsonParse notesStr).isSome

/-- One iteration of the `filterProfiles` loop of config.js: keep a
profile with required notes; otherwise try `autoGenerateNotes` and
re-check; drop the profile if notes are still missing. -/
def filterStep (acc : List JVal) (p : JVal) : List JVal :=
  if hasRequiredNotes p then acc ++ [p]
  else
    let p2 := autoGenerateNotes p
    if hasRequiredNotes p2 then acc ++ [p2] else acc

/-- `filterProfiles` of config.js, as a function of the loaded profiles. -/
def filterProfiles (loadedProfiles : List JVal) : List JVal :=
  loadedProfiles.foldl filterStep []

/-! ## fix-creality-base-filaments.js — the preset resolver -/

/-- `STRING_KEYS` of the resolver: metadata keys kept as plain strings
by normalisation. -/
def STRING_KEYS : List String :=
  ["type", "name", "from", "instantiation", "inherits",
   "filament_id", "setting_id", "base_id", "version", "is_custom_defined"]

/-- Normalisation of the fields of one preset layer:
`undefined` values are dropped, arrays pass through, `STRING_KEYS`
values become strings, and every other value becomes a one-element
array holding its string form. -/
def normFields : JObj → JObj
  | JObj.nil => JObj.nil
  | JObj.cons _ JVal.undef rest => normFields rest
  | JObj.cons k (JVal.arr vs) rest => JObj.cons k (JVal.arr vs) (normFields rest)
  | JObj.cons k v rest =>
      if STRING_KEYS.contains k then JObj.cons k (JVal.str (jsToString v)) (normFields rest)
      else
        JObj.cons k (JVal.arr (JArr.cons (JVal.str (jsToString v)) JArr.nil)) (normFields rest)

/-- `normalizePresetValues` of the resolver (`preset || {}` makes
non-objects contribute nothing). -/
def normalizePresetValues : JVal → JObj
  | JVal.obj fs => normFields fs
  | _ => JObj.nil

/-- The fields of `a` with values overridden by `b` where keys agree
(first half of `Object.assign(a, b)`). -/
def objAssignA : JObj → JObj → JObj
  | JObj.nil, _ => JObj.nil
  | JObj.cons k v rest, b => JObj.cons k ((lookupField b k).getD v) (objAssignA rest b)

/-- The fields of `b` whose keys do not occur in `a` (second half of
`Object.assign(a, b)`). -/
def objRestrictAway : JObj → JObj → JObj
  | JObj.nil, _ => JObj.nil
  | JObj.cons k v rest, a =>
      if (lookupField a k).isSome then objRestrictAway rest a
      else JObj.cons k v (objRestrictAway rest a)

/-- Concatenation of two field lists. -/
def objAppend : JObj → JObj → JObj
  | JObj.nil, b => b
  | JObj.cons k v rest, b => JObj.cons k v (objAppend rest b)

/-- `Object.assign({}, a, b)` on objects with unique keys: `a`'s slots
updated by `b`, then `b`'s new keys appended in order. -/
def objAssign (a b : JObj) : JObj :=
  objAppend (objAssignA a b) (objRestrictAway b a)

/-- `countKeys` of the resolver. -/
def countKeys : JVal → Nat
  | JVal.obj fs => fs.size
  | _ => 0

/-- `typeof v === 'string'` for an optional property value. -/
def isStringField (o : Option JVal) : Bool :=
  match o with
  | some (JVal.str _) => true
  | _ => false

/-- The `fromVal === "user"` test of the resolver: the `from` property
is a string that trims and lower-cases to "user". -/
def fromIndicatesUser (o : Option JVal) : Bool :=
  match o with
  | some (JVal.str s) => jsToLower (jsTrim s) == "user"
  | _ => false

/-- The truncation heuristic of the resolver: a user-authored preset
(`from` trims/lower-cases to "user") declaring `inherits` and `base_id`
as strings, with fewer than 120 keys. -/
def looksLikeTruncatedUserPreset (userPreset : JVal) : Bool :=
  match userPreset with
  | JVal.obj fs =>
    fromIndicatesUser (lookupField fs "from")
    && isStringField (lookupField fs "inherits")
    && isStringField (lookupField fs "base_id")
    && decide (fs.size < 120)
  | _ => false

/-- The merge step of the resolver: normalize the three layers, apply
`Object.assign({}, rootN, baseN, userN)`, force `inherits` to the root
template name when one was found (a truthy, i.e. non-empty, string),
and default `name` to the source filename stem when it is not a
non-empty string. -/
def mergePresets (rootPreset basePreset userPreset : JVal)
    (rootName : Option String) (fnameStem : String) : JObj :=
  let rootN := normalizePresetValues rootPreset
  let baseN := normalizePresetValues basePreset
  let userN := normalizePresetValues userPreset
  let merged := objAssign (objAssign rootN baseN) userN
  let merged :=
    match rootName with
    | some rn => if rn ≠ "" then updateField merged "inherits" (JVal.str rn) else merged
    | none => merged
  match lookupField merged "name" with
  | some (JVal.str s) =>
      if s = "" then updateField merged "name" (JVal.str fnameStem) else merged
  | some _ => updateField merged "name" (JVal.str fnameStem)
  | none => updateField merged "name" (JVal.str fnameStem)

/-- Outcome of the resolver for one preset file. -/
inductive ResolveOutcome where
  | skippedNotTruncated
  | skippedOutputExists
  | skippedMissingBase
  | resolved (out : JObj)

/-- The per-preset pipeline of `processCrealityVersion` (after JSON
reading): classification, overwrite gating, template lookups and merge.
`lookupPreset` models `findSystemPresetPathByName` followed by
`readJson` (`none` for a missing file or unreadable JSON); `outExists`
models `isFile(outPath)`. -/
def resolvePresetStep (userPreset : JVal) (outExists force : Bool)
    (lookupPreset : String → Option JVal) (fnameStem : String) : ResolveOutcome :=
  if looksLikeTruncatedUserPreset userPreset then
    if outExists && !force then ResolveOutcome.skippedOutputExists
    else
      let baseName := (match getProp userPreset "inherits" with
        | JVal.str s => jsTrim s
        | _ => "")
      match lookupPreset baseName with
      | none => ResolveOutcome.skippedMissingBase
      | some basePreset =>
        let rootName := match getProp basePreset "inherits" with
          | JVal.str s => some (jsTrim s)
          | _ => none
        let rootPreset := match rootName with
          | some rn => (lookupPreset rn).getD (JVal.obj JObj.nil)
          | none => JVal.obj JObj.nil
        ResolveOutcome.resolved (mergePresets rootPreset basePreset userPreset rootName fnameStem)
  else ResolveOutcome.skippedNotTruncated

/-! ## database-tool.js — database reconciliation -/

/-- The error message of `getList`. -/
def dbShapeMsg : String :=
  "Unexpected material_database.json shape: expected obj.result.list to be an array."

/-- `getList` of database-tool.js: the array at `dbObj?.result?.list`,
or a thrown error when that path does not hold an array. -/
def getList (dbObj : JVal) : Except String (List JVal) :=
  match getProp (getProp dbObj "result") "list" with
  | JVal.arr l => Except.ok l.toList
  | _ => Except.error dbShapeMsg

/-- `parseNotes` of database-tool.js and options-tool.js: trim the notes
string, treat empty-looking notes as absent, and JSON-parse the rest
(`none` models the `null` result). -/
def parseNotes (profile : JVal) : Option JVal :=
  let raw := jsTrim (getNotesString profile)
  if raw == "" || raw == "\"\"" then none else jsonParse raw

/-- The id an existing catalog entry exposes to `findById`:
`String(unwrapFirst(m?.id) ?? '')`. -/
def entryIdString (m : JVal) : String :=
  match unwrapFirst (getProp m "id") with
  | JVal.null => ""
  | JVal.undef => ""
  | v => jsToString v

/-- `findById` of database-tool.js: index of the first entry whose
normalized id equals `id` (`none` models the `-1` result). -/
def findById (list : List JVal) (id : String) : Option Nat :=
  match list with
  | [] => none
  | m :: rest => if entryIdString m == id then some 0 else (findById rest id).map (· + 1)

/-- `normalizeToArray` of database-tool.js. -/
def normalizeToArray : JVal → JVal
  | JVal.arr vs => JVal.arr vs
  | JVal.null => JVal.null
  | JVal.undef => JVal.undef
  | JVal.obj fs => JVal.obj fs
  | v => JVal.arr (JArr.cons v JArr.nil)

/-- A one-element JS array. -/
def arr1 (v : JVal) : JVal := JVal.arr (JArr.cons v JArr.nil)

/-- Copy all profile fields onto the material, each normalized to the
array convention (the overlay loop of `buildMaterialFromProfile`). -/
def objOverlay : JObj → JObj → JObj
  | m, JObj.nil => m
  | m, JObj.cons k v rest => objOverlay (updateField m k (normalizeToArray v)) rest

/-- `buildMaterialFromProfile` of database-tool.js: clone the template,
overlay every profile field, then forcibly overwrite the identity
fields from the parsed notes.  `tmpl` stands for `newMaterial.json`,
a data file that is not part of the sources. -/
def buildMaterialFromProfile (tmpl : JObj) (profile : JVal) (notesObj : JVal) : JObj :=
  let mat := objOverlay tmpl (match profile with | JVal.obj fs => fs | _ => JObj.nil)
  let id := jsToString (getProp notesObj "id")
  let name := jsToString (getProp notesObj "name")
  let vendor := jsToString (getProp notesObj "vendor")
  let typeS := jsToString (getProp notesObj "type")
  let notesJ := JObj.cons "id" (JVal.str id)
    (JObj.cons "vendor" (JVal.str vendor)
      (JObj.cons "type" (JVal.str typeS) (JObj.cons "name" (JVal.str name) JObj.nil)))
  let mat := updateField mat "id" (arr1 (JVal.str id))
  let mat := updateField mat "name" (arr1 (JVal.str name))
  let mat := updateField mat "filament_id" (arr1 (JVal.str id))
  let mat := updateField mat "filament_vendor" (arr1 (JVal.str vendor))
  let mat := updateField mat "filament_type" (arr1 (JVal.str typeS))
  let mat := updateField mat "filament_settings_id" (arr1 (JVal.str name))
  let mat := updateField mat "from" (arr1 (JVal.str "User"))
  let mat := updateField mat "is_custom_defined" (arr1 (JVal.num 0))
  updateField mat "filament_notes" (arr1 (JVal.str (jsonStringify (JVal.obj notesJ))))

/-- The notes gate of the `addToDatabase` loop: `null` or id-less parsed
notes make the profile be skipped. -/
def dbNotesSel (p : JVal) : Option JVal :=
  match parseNotes p with
  | none => none
  | some nv => if truthy nv && truthy (getProp nv "id") then some nv else none

/-- One iteration of the `addToDatabase` loop: skip, replace the first
entry matching the notes id, or append. -/
def applyProfile (tmpl : JObj) (list : List JVal) (p : JVal) : List JVal :=
  match dbNotesSel p with
  | none => list
  | some nv =>
    let id := jsToString (getProp nv "id")
    let material := JVal.obj (buildMaterialFromProfile tmpl p nv)
    match findById list id with
    | some idx => list.set idx material
    | none => list ++ [material]

/-- `addToDatabase` of database-tool.js as a document transformer: run
the reconciliation loop on `result.list`, then set `result.count` to the
new length and `result.version` to the current time stamp (a parameter
here).  The `Except.error` models the exception thrown by `getList`. -/
def addToDatabaseRun (tmpl : JObj) (dbObj : JVal) (profiles : List JVal)
    (version : String) : Except String JVal :=
  match dbObj with
  | JVal.obj dbFields =>
    match lookupField dbFields "result" with
    | some (JVal.obj resFields) =>
      match lookupField resFields "list" with
      | some (JVal.arr l) =>
        let list2 := profiles.foldl (applyProfile tmpl) l.toList
        let res2 := updateField (updateField (updateField resFields
          "list" (JVal.arr (JArr.ofList list2)))
          "count" (JVal.num list2.length))
          "version" (JVal.str version)
        Except.ok (JVal.obj (updateField dbFields "result" (JVal.obj res2)))
      | _ => Except.error dbShapeMsg
    | _ => Except.error dbShapeMsg
  | _ => Except.error dbShapeMsg

/-- The same document with only `result.version` replaced. -/
def setResultVersion (db : JVal) (version : String) : JVal :=
  match db with
  | JVal.obj fs =>
    match lookupField fs "result" with
    | some (JVal.obj rs) =>
        JVal.obj (updateField fs "result" (JVal.obj (updateField rs "version" (JVal.str version))))
    | _ => db
  | _ => db

/-- Number of entries of a catalog list matching a given id. -/
def matchCount (list : List JVal) (id : String) : Nat :=
  (list.filter fun m => entryIdString m == id).length

/-! ## options-tool.js — options reconciliation -/

/-- The notes gate of the `addToOptions` loop: parsed notes must be
truthy with truthy `vendor`, `type` and `name`. -/
def optNotesSel (p : JVal) : Option JVal :=
  match parseNotes p with
  | none => none
  | some nv =>
    if truthy nv && truthy (getProp nv "vendor") && truthy (getProp nv "type")
        && truthy (getProp nv "name")
    then some nv else none

/-- One iteration of the `addToOptions` loop of options-tool.js:
`obj[vendor][type] = name`, creating the vendor map when it is not an
object. -/
def applyOptionProfile (optObj : JObj) (p : JVal) : JObj :=
  match optNotesSel p with
  | none => optObj
  | some nv =>
    let vk := jsToString (getProp nv "vendor")
    let tk := jsToString (getProp nv "type")
    let vmap := match lookupField optObj vk with
      | some (JVal.obj m) => m
      | _ => JObj.nil
    updateField optObj vk (JVal.obj (updateField vmap tk (getProp nv "name")))

/-- `addToOptions` of options-tool.js as a document transformer. -/
def addToOptionsRun (optObj : JObj) (profiles : List JVal) : JObj :=
  profiles.foldl applyOptionProfile optObj

/-! ## Basic lemmas about the object and array model -/

/-- Structural induction for `JObj` spines (the `induction` tactic does
not handle mutual inductives directly). -/
theorem JObj.inductObj {P : JObj → Prop} (hnil : P JObj.nil)
    (hcons : ∀ k v rest, P rest → P (JObj.cons k v rest)) : ∀ o, P o
  | JObj.nil => hnil
  | JObj.cons k v rest => hcons k v rest (JObj.inductObj hnil hcons rest)

/-- Structural induction for `JArr` spines. -/
theorem JArr.inductArr {P : JArr → Prop} (hnil : P JArr.nil)
    (hcons : ∀ v rest, P rest → P (JArr.cons v rest)) : ∀ a, P a
  | JArr.nil => hnil
  | JArr.cons v rest => hcons v rest (JArr.inductArr hnil hcons rest)

lemma lookupField_updateField_self (o : JObj) (k : String) (v : JVal) :
    lookupField (updateField o k v) k = some v := by
  induction o using JObj.inductObj with
  | hnil => simp [updateField, lookupField]
  | hcons k' v' rest ih =>
      by_cases h : k' = k
      · simp [updateField, h, lookupField]
      · simp [updateField, h, lookupField, ih]

lemma lookupField_updateField_ne (o : JObj) (k k' : String) (v : JVal) (h : k' ≠ k) :
    lookupField (updateField o k' v) k = lookupField o k := by
  induction o using JObj.inductObj with
  | hnil => simp [updateField, lookupField, h]
  | hcons k2 v2 rest ih =>
      by_cases h2 : k2 = k'
      · subst h2
        simp [updateField, lookupField, h]
      · by_cases h3 : k2 = k
        · simp [updateField, h2, lookupField, h3, Ne.symm h]
        · simp [updateField, h2, lookupField, h3, ih]

lemma updateField_updateField_same (o : JObj) (k : String) (v v' : JVal) :
    updateField (updateField o k v) k v' = updateField o k v' := by
  induction o using JObj.inductObj with
  | hnil => simp [updateField]
  | hcons k2 v2 rest ih =>
      by_cases h : k2 = k
      · simp [updateField, h]
      · simp [updateField, h, ih]

lemma updateField_self (o : JObj) (k : String) (v : JVal)
    (h : lookupField o k = some v) : updateField o k v = o := by
  induction o using JObj.inductObj with
  | hnil => simp [lookupField] at h
  | hcons k2 v2 rest ih =>
      by_cases h2 : k2 = k
      · subst h2
        simp [lookupField] at h
        simp [updateField, h]
      · simp [lookupField, h2] at h
        simp [updateField, h2, ih h]

lemma JArr.toList_ofList (l : List JVal) : (JArr.ofList l).toList = l := by
  induction l with
  | nil => rfl
  | cons v rest ih => simp [JArr.ofList, JArr.toList, ih]

/-! ## The derived id (claim C4) -/

lemma digitChar_isDigit (d : Nat) (h : d < 10) : (digitChar d).isDigit = true := by
  interval_cases d <;> decide

lemma natToDecAux_length :
    ∀ (k fuel n : Nat), k < fuel → 10 ^ k ≤ n → n < 10 ^ (k + 1) →
      (natToDecAux fuel n).length = k + 1 := by
  intro k
  induction k with
  | zero =>
      intro fuel n hf h1 h2
      obtain ⟨f, rfl⟩ : ∃ f, fuel = f + 1 := ⟨fuel - 1, by omega⟩
      have hn : n < 10 := by simpa using h2
      simp [natToDecAux, hn]
  | succ k ih =>
      intro fuel n hf h1 h2
      obtain ⟨f, rfl⟩ : ∃ f, fuel = f + 1 := ⟨fuel - 1, by omega⟩
      have hten : (10 : Nat) ≤ 10 ^ (k + 1) := by
        calc (10 : Nat) = 10 ^ 1 := by norm_num
        _ ≤ 10 ^ (k + 1) := Nat.pow_le_pow_right (by norm_num) (by omega)
      have hn : ¬ n < 10 := by omega
      have hdiv1 : 10 ^ k ≤ n / 10 := by
        rw [Nat.le_div_iff_mul_le (by norm_num : 0 < 10)]
        calc 10 ^ k * 10 = 10 ^ (k + 1) := (pow_succ 10 k).symm
        _ ≤ n := h1
      have hdiv2 : n / 10 < 10 ^ (k + 1) := by
        rw [Nat.div_lt_iff_lt_mul (by norm_num : 0 < 10)]
        calc n < 10 ^ (k + 1 + 1) := h2
        _ = 10 ^ (k + 1) * 10 := pow_succ 10 (k + 1)
      have hlen := ih f (n / 10) (by omega) hdiv1 hdiv2
      simp [natToDecAux, hn, hlen]

lemma natToDecAux_digits :
    ∀ (fuel n : Nat), ∀ c ∈ natToDecAux fuel n, c.isDigit = true := by
  intro fuel
  induction fuel with
  | zero => intro n c hc; simp [natToDecAux] at hc
  | succ f ih =>
      intro n c hc
      by_cases h : n < 10
      · simp [natToDecAux, h] at hc
        subst hc
        exact digitChar_isDigit n h
      · simp [natToDecAux, h] at hc
        rcases hc with hc | hc
        · exact ih _ _ hc
        · subst hc
          exact digitChar_isDigit _ (Nat.mod_lt _ (by norm_num))

lemma natToDec_length_five (n : Nat) (h1 : 10000 ≤ n) (h2 : n ≤ 99999) :
    (natToDec n).length = 5 := by
  have hlen : (natToDecAux (n + 1) n).length = 4 + 1 :=
    natToDecAux_length 4 (n + 1) n (by omega)
      (by norm_num at *; omega) (by norm_num at *; omega)
  have heq : (natToDec n).length = (natToDecAux (n + 1) n).length := rfl
  omega

lemma stableFiveDigitIdNum_range (s : String) :
    10000 ≤ stableFiveDigitIdNum s ∧ stableFiveDigitIdNum s ≤ 99999 := by
  have h : stableFiveDigitIdNum s
      = (if s.isEmpty then fnv1aU s else absInt32 (fnv1aU s)) % 90000 + 10000 := rfl
  have h2 : (if s.isEmpty then fnv1aU s else absInt32 (fnv1aU s)) % 90000 < 90000 :=
    Nat.mod_lt _ (by norm_num)
  omega

lemma natToDec_toList (n : Nat) : (natToDec n).toList = natToDecAux (n + 1) n := rfl

lemma stableFiveDigitId_eq (s : String) :
    stableFiveDigitId s = natToDec (stableFiveDigitIdNum s) := rfl

/-- C4: the derived material id is a pure, deterministic function of the
input string — equal `vendor|type|name` triples give equal ids — and it
is the decimal string of the FNV-1a-derived number reduced modulo 90000
and offset by 10000, which always lies in 10000..99999, so the id is
always a 5-digit numeric string. -/
theorem c4_stable_id_deterministic_five_digit :
    (∀ (v t n v2 t2 n2 : String), (v, t, n) = (v2, t2, n2) →
        stableFiveDigitId (v ++ "|" ++ t ++ "|" ++ n)
          = stableFiveDigitId (v2 ++ "|" ++ t2 ++ "|" ++ n2))
    ∧ ∀ s : String,
        stableFiveDigitId s = natToDec (stableFiveDigitIdNum s)
        ∧ 10000 ≤ stableFiveDigitIdNum s ∧ stableFiveDigitIdNum s ≤ 99999
        ∧ (stableFiveDigitId s).length = 5
        ∧ ∀ c ∈ (stableFiveDigitId s).toList, c.isDigit = true := by
  constructor
  · intro v t n v2 t2 n2 h
    obtain ⟨rfl, rfl, rfl⟩ : v = v2 ∧ t = t2 ∧ n = n2 := by
      simpa [Prod.ext_iff] using h
    rfl
  · intro s
    obtain ⟨h1, h2⟩ := stableFiveDigitIdNum_range s
    refine ⟨rfl, h1, h2, natToDec_length_five _ h1 h2, ?_⟩
    intro c hc
    rw [stableFiveDigitId_eq, natToDec_toList] at hc
    exact natToDecAux_digits _ _ c hc

/-- C4 witness: the theorem applied at the concrete triple
`("Acme", "PETG", "Test")`, whose id evaluates to "68553". -/
theorem c4_stable_id_witness :
    stableFiveDigitId ("Acme" ++ "|" ++ "PETG" ++ "|" ++ "Test")
        = stableFiveDigitId ("Acme" ++ "|" ++ "PETG" ++ "|" ++ "Test")
      ∧ stableFiveDigitId "Acme|PETG|Test" = "68553"
      ∧ 10000 ≤ stableFiveDigitIdNum "Acme|PETG|Test" := by
  refine ⟨c4_stable_id_deterministic_five_digit.1 "Acme" "PETG" "Test" "Acme" "PETG" "Test" rfl,
    rfl, ?_⟩
  exact (c4_stable_id_deterministic_five_digit.2 "Acme|PETG|Test").2.1

/-! ## getList and the fatal shape error (claim C8) -/

lemma addToDatabaseRun_ok_eq (tmpl : JObj) (profiles : List JVal) (version : String)
    (dbFields resFields : JObj) (l : JArr)
    (hres : lookupField dbFields "result" = some (JVal.obj resFields))
    (hlist : lookupField resFields "list" = some (JVal.arr l)) :
    addToDatabaseRun tmpl (JVal.obj dbFields) profiles version
      = Except.ok (JVal.obj (updateField dbFields "result" (JVal.obj
          (updateField (updateField (updateField resFields "list"
            (JVal.arr (JArr.ofList (profiles.foldl (applyProfile tmpl) l.toList))))
            "count" (JVal.num (profiles.foldl (applyProfile tmpl) l.toList).length))
            "version" (JVal.str version))))) := by
  simp [addToDatabaseRun, hres, hlist]

lemma getList_obj_eq (dbFields resFields : JObj) (l : JArr)
    (hres : lookupField dbFields "result" = some (JVal.obj resFields))
    (hlist : lookupField resFields "list" = some (JVal.arr l)) :
    getList (JVal.obj dbFields) = Except.ok l.toList := by
  simp [getList, getProp, hres, hlist]

lemma resultList_shape (dbObj : JVal) (l : JArr)
    (hl : getProp (getProp dbObj "result") "list" = JVal.arr l) :
    ∃ dbFields resFields, dbObj = JVal.obj dbFields
      ∧ lookupField dbFields "result" = some (JVal.obj resFields)
      ∧ lookupField resFields "list" = some (JVal.arr l) := by
  cases dbObj with
  | obj dbFields =>
    rcases hres : lookupField dbFields "result" with _ | v
    · simp [getProp, hres] at hl
    · cases v with
      | obj resFields =>
        refine ⟨dbFields, resFields, rfl, hres, ?_⟩
        rcases hlist : lookupField resFields "list" with _ | w
        · simp [getProp, hres, hlist] at hl
        · have hw : w = JVal.arr l := by simpa [getProp, hres, hlist] using hl
          rw [← hw]
      | str s => simp [getProp, hres] at hl
      | num n => simp [getProp, hres] at hl
      | bool b => simp [getProp, hres] at hl
      | null => simp [getProp, hres] at hl
      | undef => simp [getProp, hres] at hl
      | arr a => simp [getProp, hres] at hl
  | str s => simp [getProp] at hl
  | num n => simp [getProp] at hl
  | bool b => simp [getProp] at hl
  | null => simp [getProp] at hl
  | undef => simp [getProp] at hl
  | arr a => simp [getProp] at hl

/-- C8: for every database-shaped baseline document, reconciliation
raises the fatal shape error — `getList` returns the error and
`addToDatabase` produces no output document — if and only if the value
at `result.list` is not a list; when it is a list, the error branch is
unreachable and the run produces an output document. -/
theorem c8_getlist_fatal_iff_not_list :
    ∀ (dbObj : JVal) (tmpl : JObj) (profiles : List JVal) (version : String),
      ((∃ l : JArr, getProp (getProp dbObj "result") "list" = JVal.arr l) →
        (∃ entries, getList dbObj = Except.ok entries)
          ∧ ∃ out, addToDatabaseRun tmpl dbObj profiles version = Except.ok out)
      ∧ ((∀ l : JArr, getProp (getProp dbObj "result") "list" ≠ JVal.arr l) →
        getList dbObj = Except.error dbShapeMsg
          ∧ addToDatabaseRun tmpl dbObj profiles version = Except.error dbShapeMsg) := by
  intro dbObj tmpl profiles version
  constructor
  · rintro ⟨l, hl⟩
    obtain ⟨dbFields, resFields, rfl, hres, hlist⟩ := resultList_shape dbObj l hl
    exact ⟨⟨l.toList, getList_obj_eq dbFields resFields l hres hlist⟩,
      ⟨_, addToDatabaseRun_ok_eq tmpl profiles version dbFields resFields l hres hlist⟩⟩
  · intro h
    constructor
    · unfold getList
      split
      · rename_i l2 heq
        exact absurd heq (h l2)
      · rfl
    · cases dbObj with
      | obj dbFields =>
        rcases hres : lookupField dbFields "result" with _ | v
        · simp [addToDatabaseRun, hres]
        · cases v with
          | obj resFields =>
            rcases hlist : lookupField resFields "list" with _ | w
            · simp [addToDatabaseRun, hres, hlist]
            · cases w with
              | arr l2 => exact absurd (by simp [getProp, hres, hlist]) (h l2)
              | str s => simp [addToDatabaseRun, hres, hlist]
              | num n => simp [addToDatabaseRun, hres, hlist]
              | bool b => simp [addToDatabaseRun, hres, hlist]
              | null => simp [addToDatabaseRun, hres, hlist]
              | undef => simp [addToDatabaseRun, hres, hlist]
              | obj fs => simp [addToDatabaseRun, hres, hlist]
          | str s => simp [addToDatabaseRun, hres]
          | num n => simp [addToDatabaseRun, hres]
          | bool b => simp [addToDatabaseRun, hres]
          | null => simp [addToDatabaseRun, hres]
          | undef => simp [addToDatabaseRun, hres]
          | arr a => simp [addToDatabaseRun, hres]
      | str s => rfl
      | num n => rfl
      | bool b => rfl
      | null => rfl
      | undef => rfl
      | arr a => rfl

/-- C8 witness: a well-shaped empty document takes the ok branch, and a
document whose `result.list` is a number takes the error branch. -/
theorem c8_getlist_witness :
    (∃ entries, getList (JVal.obj (JObj.cons "result"
        (JVal.obj (JObj.cons "list" (JVal.arr JArr.nil) JObj.nil)) JObj.nil))
      = Except.ok entries)
    ∧ getList (JVal.obj (JObj.cons "result"
        (JVal.obj (JObj.cons "list" (JVal.num 3) JObj.nil)) JObj.nil))
      = Except.error dbShapeMsg := by
  constructor
  · exact ((c8_getlist_fatal_iff_not_list
      (JVal.obj (JObj.cons "result" (JVal.obj (JObj.cons "list" (JVal.arr JArr.nil) JObj.nil)) JObj.nil))
      JObj.nil [] "0").1 ⟨JArr.nil, rfl⟩).1
  · exact ((c8_getlist_fatal_iff_not_list
      (JVal.obj (JObj.cons "result" (JVal.obj (JObj.cons "list" (JVal.num 3) JObj.nil)) JObj.nil))
      JObj.nil [] "0").2 (by intro l h; simp [getProp, lookupField] at h)).1

/-! ## The truncation classification (claim C7) -/

lemma isStringField_true_iff (o : Option JVal) :
    isStringField o = true ↔ ∃ s, o = some (JVal.str s) := by
  rcases o with _ | v
  · simp [isStringField]
  · cases v <;> simp [isStringField]

lemma fromIndicatesUser_true_iff (o : Option JVal) :
    fromIndicatesUser o = true
      ↔ ∃ s, o = some (JVal.str s) ∧ jsToLower (jsTrim s) = "user" := by
  rcases o with _ | v
  · simp [fromIndicatesUser]
  · cases v <;> simp [fromIndicatesUser]

/-- C7: a preset is classified as truncated (eligible for expansion) iff
it declares `inherits` as a string, declares `base_id` as a string, its
`from` field is a string indicating user authorship, and its key count
is below the threshold 120; and every preset failing the classification
is skipped by the resolver. -/
theorem c7_truncation_classification :
    ∀ (userPreset : JVal) (outExists force : Bool)
      (lookupPreset : String → Option JVal) (fnameStem : String),
      (∀ fs, userPreset = JVal.obj fs →
        (looksLikeTruncatedUserPreset userPreset = true ↔
          ((∃ s, lookupField fs "inherits" = some (JVal.str s))
            ∧ (∃ s, lookupField fs "base_id" = some (JVal.str s))
            ∧ (∃ s, lookupField fs "from" = some (JVal.str s) ∧ jsToLower (jsTrim s) = "user")
            ∧ countKeys userPreset < 120)))
      ∧ (looksLikeTruncatedUserPreset userPreset = false →
          resolvePresetStep userPreset outExists force lookupPreset fnameStem
            = ResolveOutcome.skippedNotTruncated) := by
  intro userPreset outExists force lookupPreset fnameStem
  constructor
  · rintro fs rfl
    simp only [looksLikeTruncatedUserPreset, Bool.and_eq_true, decide_eq_true_eq,
      isStringField_true_iff, fromIndicatesUser_true_iff, countKeys]
    tauto
  · intro h
    simp [resolvePresetStep, h]

def c7preset : JVal :=
  JVal.obj (JObj.cons "from" (JVal.str " User ")
    (JObj.cons "inherits" (JVal.str "Generic PETG @Base")
      (JObj.cons "base_id" (JVal.str "GP04") JObj.nil)))

/-- C7 witness: a three-key user preset with string `inherits` and
`base_id` is classified truncated; the empty object is not and is
skipped by the resolver. -/
theorem c7_truncation_witness :
    looksLikeTruncatedUserPreset c7preset = true
    ∧ resolvePresetStep (JVal.obj JObj.nil) false false (fun _ => none) "stem"
        = ResolveOutcome.skippedNotTruncated := by
  constructor
  · exact ((c7_truncation_classification c7preset false false (fun _ => none) "stem").1
      _ rfl).2
      ⟨⟨"Generic PETG @Base", rfl⟩, ⟨"GP04", rfl⟩, ⟨" User ", rfl, rfl⟩, by decide⟩
  · exact (c7_truncation_classification (JVal.obj JObj.nil) false false (fun _ => none) "stem").2 rfl

/-! ## Type derivation from inheritance names (claim C6) -/

lemma matchLit_append (as bs : List Char) : matchLit as (as ++ bs) = some bs := by
  induction as with
  | nil => simp [matchLit]
  | cons a rest ih => simp [matchLit, ih]

lemma takeWhile_all_eq {p : Char → Bool} (l : List Char) (h : ∀ c ∈ l, p c = true) :
    l.takeWhile p = l := by
  induction l with
  | nil => rfl
  | cons c rest ih =>
      simp [List.takeWhile, h c (by simp), ih (fun c hc => h c (by simp [hc]))]

lemma string_toList_append (a b : String) : (a ++ b).toList = a.toList ++ b.toList := by
  simp [String.toList]

/-- The behaviour of `deriveTypeFromInherits` on a name whose lower-case
form is exactly `fdm_filament_<type>`. -/
lemma deriveTypeFromInherits_exact (s ty : String)
    (hlow : jsToLower s = "fdm_filament_" ++ ty) (hne : ty ≠ "")
    (hcls : ∀ c ∈ ty.toList, isTypeChar c = true) :
    deriveTypeFromInherits (JVal.str s) = String.mk (ty.toList.map Char.toUpper) := by
  obtain ⟨c0, l0, hl⟩ : ∃ c0 l0, ty.toList = c0 :: l0 := by
    cases h : ty.toList with
    | nil =>
        exfalso
        apply hne
        cases ty with
        | mk data =>
            have hdata : data = [] := h
            subst hdata
            rfl
    | cons a b => exact ⟨a, b, rfl⟩
  have h1 : deriveTypeFromInherits (JVal.str s)
      = (match findFdmMatch (jsToLower s).toList with
         | none => ""
         | some grp => String.mk (grp.map Char.toUpper)) := rfl
  have htw : List.takeWhile isTypeChar ty.toList = ty.toList := takeWhile_all_eq ty.toList hcls
  have hfind : findFdmMatch (jsToLower s).toList = some ty.toList := by
    rw [hlow, string_toList_append]
    have h2 : "fdm_filament_".toList ++ ty.toList
        = 'f' :: ("dm_filament_".toList ++ ty.toList) := rfl
    rw [h2, findFdmMatch,
      show matchLit "fdm_filament_".toList ('f' :: ("dm_filament_".toList ++ ty.toList))
          = some ty.toList from matchLit_append _ _]
    rw [hl] at htw
    simp only [hl]
    rw [htw]
    rfl
  rw [h1, hfind]

def c6profile : JVal :=
  JVal.obj (JObj.cons "name" (arr1 (JVal.str "X"))
    (JObj.cons "filament_vendor" (arr1 (JVal.str "Acme"))
      (JObj.cons "inherits" (JVal.str "abc_filament_petg") JObj.nil)))

/-- C6 counterexample: "abc_filament_petg" has the claimed shape
`<family>_filament_<type>` (family "abc", type "petg"), yet the
synthesized type is "CUSTOM", not "PETG" — the source pattern fixes the
family part to "fdm". -/
theorem c6_type_derivation_counterexample :
    ("abc_filament_petg" = "abc" ++ "_filament_" ++ "petg")
    ∧ deriveTypeFromInherits (JVal.str "abc_filament_petg") = ""
    ∧ lookupField (autoNotesObj c6profile) "type" = some (JVal.str "CUSTOM")
    ∧ ("CUSTOM" : String) ≠ "PETG" :=
  ⟨rfl, rfl, rfl, by decide⟩

/-- C6 (amended): when notes are synthesized and the preset has no
`filament_type` field, the type falls back to
`deriveTypeFromInherits` and then to the sentinel "CUSTOM"; the
extraction pattern is `fdm_filament_<type>` with the family part fixed
to "fdm": every inheritance name whose lower-case form is exactly
`fdm_filament_<type>` (type a non-empty run of `[a-z0-9_]`) yields the
upper-cased type, e.g. "fdm_filament_petg" gives "PETG". -/
theorem c6_type_derivation_amended :
    (∀ fs : JObj, lookupField fs "filament_type" = none →
      lookupField (autoNotesObj (JVal.obj fs)) "type"
        = some (if deriveTypeFromInherits (safeFirst (getProp (JVal.obj fs) "inherits")) = ""
                then JVal.str "CUSTOM"
                else JVal.str (deriveTypeFromInherits (safeFirst (getProp (JVal.obj fs) "inherits")))))
    ∧ (∀ s ty : String, jsToLower s = "fdm_filament_" ++ ty → ty ≠ "" →
        (∀ c ∈ ty.toList, isTypeChar c = true) →
        deriveTypeFromInherits (JVal.str s) = String.mk (ty.toList.map Char.toUpper))
    ∧ deriveTypeFromInherits (JVal.str "fdm_filament_petg") = "PETG" := by
  refine ⟨?_, deriveTypeFromInherits_exact, rfl⟩
  intro fs h
  have htv : getProp (JVal.obj fs) "filament_type" = JVal.undef := by simp [getProp, h]
  simp [autoNotesObj, htv, safeFirst, unwrapFirst, truthy, lookupField]

/-- C6 witness: the amended theorem applied at the counterexample
profile (no `filament_type`) and at the concrete name
"fdm_filament_petg" with type part "petg". -/
theorem c6_type_derivation_witness :
    lookupField (autoNotesObj c6profile) "type"
        = some (if deriveTypeFromInherits (safeFirst (getProp c6profile "inherits")) = ""
                then JVal.str "CUSTOM"
                else JVal.str (deriveTypeFromInherits (safeFirst (getProp c6profile "inherits"))))
    ∧ deriveTypeFromInherits (JVal.str "fdm_filament_petg")
        = String.mk ("petg".toList.map Char.toUpper) := by
  constructor
  · exact c6_type_derivation_amended.1 _ rfl
  · exact c6_type_derivation_amended.2.1 "fdm_filament_petg" "petg" rfl (by decide) (by decide)

/-! ## The three-layer merge (claim C1) -/

/-- Non-thunked option choice: the first option when present, else the
second. -/
def optOr (a b : Option JVal) : Option JVal :=
  match a with
  | some v => some v
  | none => b

lemma lookupField_objAppend (a b : JObj) (k : String) :
    lookupField (objAppend a b) k = optOr (lookupField a k) (lookupField b k) := by
  induction a using JObj.inductObj with
  | hnil => simp [objAppend, lookupField, optOr]
  | hcons k1 v1 rest ih =>
      by_cases h : k1 = k
      · simp [objAppend, lookupField, h, optOr]
      · simp [objAppend, lookupField, h, ih]

lemma lookupField_objAssignA (a b : JObj) (k : String) :
    lookupField (objAssignA a b) k
      = (lookupField a k).map (fun v => (lookupField b k).getD v) := by
  induction a using JObj.inductObj with
  | hnil => simp [objAssignA, lookupField]
  | hcons k1 v1 rest ih =>
      by_cases h : k1 = k
      · simp [objAssignA, lookupField, h]
      · simp [objAssignA, lookupField, h, ih]

lemma lookupField_objRestrictAway (b a : JObj) (k : String) :
    lookupField (objRestrictAway b a) k
      = if (lookupField a k).isSome then none else lookupField b k := by
  induction b using JObj.inductObj with
  | hnil =>
      rcases h : lookupField a k with _ | v <;> simp [objRestrictAway, lookupField, h]
  | hcons k1 v1 rest ih =>
      by_cases h : k1 = k
      · subst h
        rcases ha : lookupField a k1 with _ | v
        · simp [objRestrictAway, ha, lookupField, ih]
        · simp [objRestrictAway, ha, lookupField, ih]
      · rcases ha : lookupField a k1 with _ | v
        · simp [objRestrictAway, ha, lookupField, h, ih]
        · simp [objRestrictAway, ha, lookupField, h, ih]

lemma lookupField_objAssign (a b : JObj) (k : String) :
    lookupField (objAssign a b) k = optOr (lookupField b k) (lookupField a k) := by
  unfold objAssign
  rw [lookupField_objAppend, lookupField_objAssignA, lookupField_objRestrictAway]
  rcases ha : lookupField a k with _ | va <;> rcases hb : lookupField b k with _ | vb <;> simp [optOr]

/-- C1: in the resolver's merge, the value of every key present in more
than one of the normalized root, system (base) and user layers follows
the user-over-system-over-root precedence, and after the merge the
`inherits` field of the resolved preset is forced to the root template
name whenever one was found (a truthy, non-empty string). -/
theorem c1_merge_precedence_and_inherits :
    ∀ (rootPreset basePreset userPreset : JVal) (rootName : Option String)
      (fnameStem : String) (k : String),
      (((lookupField (normalizePresetValues rootPreset) k).isSome
          && (lookupField (normalizePresetValues basePreset) k).isSome
        || (lookupField (normalizePresetValues rootPreset) k).isSome
          && (lookupField (normalizePresetValues userPreset) k).isSome
        || (lookupField (normalizePresetValues basePreset) k).isSome
          && (lookupField (normalizePresetValues userPreset) k).isSome) = true →
        lookupField (objAssign (objAssign (normalizePresetValues rootPreset)
            (normalizePresetValues basePreset)) (normalizePresetValues userPreset)) k
          = optOr (lookupField (normalizePresetValues userPreset) k)
              (optOr (lookupField (normalizePresetValues basePreset) k)
                (lookupField (normalizePresetValues rootPreset) k)))
      ∧ (∀ rn, rootName = some rn → rn ≠ "" →
          lookupField (mergePresets rootPreset basePreset userPreset rootName fnameStem)
            "inherits" = some (JVal.str rn)) := by
  intro rootPreset basePreset userPreset rootName fnameStem k
  constructor
  · intro _
    rw [lookupField_objAssign, lookupField_objAssign]
  · intro rn hrn hne
    subst hrn
    have hni : ("name" : String) ≠ "inherits" := by decide
    unfold mergePresets
    simp only [hne, ne_eq, not_false_eq_true, if_true, ite_true]
    split
    · split
      · simp [lookupField_updateField_ne _ _ _ _ hni, lookupField_updateField_self]
      · simp [lookupField_updateField_self]
    · simp [lookupField_updateField_ne _ _ _ _ hni, lookupField_updateField_self]
    · simp [lookupField_updateField_ne _ _ _ _ hni, lookupField_updateField_self]

def c1root : JVal :=
  JVal.obj (JObj.cons "temp" (JVal.num 190) (JObj.cons "inherits" (JVal.str "X") JObj.nil))

def c1base : JVal :=
  JVal.obj (JObj.cons "temp" (JVal.num 200) (JObj.cons "inherits" (JVal.str "fdm_root") JObj.nil))

def c1user : JVal :=
  JVal.obj (JObj.cons "temp" (JVal.num 210) JObj.nil)

/-- C1 witness: the theorem applied to three concrete layers sharing the
key "temp", with root template name "fdm_root". -/
theorem c1_merge_precedence_witness :
    lookupField (objAssign (objAssign (normalizePresetValues c1root)
        (normalizePresetValues c1base)) (normalizePresetValues c1user)) "temp"
      = optOr (lookupField (normalizePresetValues c1user) "temp")
          (optOr (lookupField (normalizePresetValues c1base) "temp")
            (lookupField (normalizePresetValues c1root) "temp"))
    ∧ lookupField (mergePresets c1root c1base c1user (some "fdm_root") "stem") "inherits"
        = some (JVal.str "fdm_root") := by
  constructor
  · exact (c1_merge_precedence_and_inherits c1root c1base c1user (some "fdm_root")
      "stem" "temp").1 rfl
  · exact (c1_merge_precedence_and_inherits c1root c1base c1user (some "fdm_root")
      "stem" "temp").2 "fdm_root" rfl (by decide)

/-! ## The profile filter (claim C5) -/

lemma mem_foldl_filterStep :
    ∀ (ps acc : List JVal) (p : JVal),
      p ∈ ps.foldl filterStep acc → p ∈ acc ∨ hasRequiredNotes p = true := by
  intro ps
  induction ps with
  | nil => intro acc p h; exact Or.inl h
  | cons q rest ih =>
      intro acc p h
      rcases ih (filterStep acc q) p h with h2 | h2
      · by_cases hq : hasRequiredNotes q
        · simp only [filterStep, hq, if_true] at h2
          rcases List.mem_append.1 h2 with h3 | h3
          · exact Or.inl h3
          · right
            have hpq : p = q := by simpa using h3
            rw [hpq]
            exact hq
        · by_cases hq2 : hasRequiredNotes (autoGenerateNotes q)
          · simp only [filterStep, hq, hq2, if_true, if_false] at h2
            rcases List.mem_append.1 h2 with h3 | h3
            · exact Or.inl h3
            · right
              have hpq : p = autoGenerateNotes q := by simpa using h3
              rw [hpq]
              exact hq2
          · simp only [filterStep, hq, hq2, if_false] at h2
            exact Or.inl h2
      · exact Or.inr h2

lemma hasRequiredNotes_true_parts (p : JVal) (h : hasRequiredNotes p = true) :
    notesLooksEmpty (getNotesString p) = false ∧ (jsonParse (getNotesString p)).isSome = true := by
  by_cases he : notesLooksEmpty (getNotesString p)
  · rw [show hasRequiredNotes p = if notesLooksEmpty (getNotesString p) then false
        else (jsonParse (getNotesString p)).isSome from rfl, if_pos he] at h
    exact absurd h (by simp)
  · rw [show hasRequiredNotes p = if notesLooksEmpty (getNotesString p) then false
        else (jsonParse (getNotesString p)).isSome from rfl, if_neg he] at h
    exact ⟨by simpa using he, h⟩

def c5profile : JVal :=
  JVal.obj (JObj.cons "filament_notes" (arr1 (JVal.str "\x7b\"id\":\"10001\"\x7d")) JObj.nil)

/-- C5 counterexample: a preset whose pre-existing notes are the
JSON-parseable string `{"id":"10001"}` passes the profile filter even
though the parsed record has no `vendor` (nor `type` nor `name`) field:
the filter checks only that the notes string is non-empty and parses. -/
theorem c5_filter_counterexample :
    filterProfiles [c5profile] = [c5profile]
    ∧ jsonParse (getNotesString c5profile)
        = some (JVal.obj (JObj.cons "id" (JVal.str "10001") JObj.nil))
    ∧ getProp (JVal.obj (JObj.cons "id" (JVal.str "10001") JObj.nil)) "vendor" = JVal.undef
    ∧ truthy (getProp (JVal.obj (JObj.cons "id" (JVal.str "10001") JObj.nil)) "vendor") = false :=
  ⟨rfl, rfl, rfl, rfl⟩

/-- C5 (amended): every preset that passes the profile filter carries a
`filament_notes` value whose notes string is not empty-looking and is
JSON-parseable; non-emptiness of the parsed record's vendor, type and
name is not part of the filter's guarantee. -/
theorem c5_filter_guarantees_amended :
    ∀ (loadedProfiles : List JVal) (p : JVal), p ∈ filterProfiles loadedProfiles →
      hasRequiredNotes p = true
      ∧ notesLooksEmpty (getNotesString p) = false
      ∧ (jsonParse (getNotesString p)).isSome = true := by
  intro loadedProfiles p h
  rcases mem_foldl_filterStep loadedProfiles [] p h with h2 | h2
  · exact absurd h2 (List.not_mem_nil p)
  · exact ⟨h2, hasRequiredNotes_true_parts p h2⟩

/-- C5 witness: the amended theorem applied to the counterexample
profile, which the filter keeps. -/
theorem c5_filter_witness :
    hasRequiredNotes c5profile = true
    ∧ notesLooksEmpty (getNotesString c5profile) = false
    ∧ (jsonParse (getNotesString c5profile)).isSome = true :=
  c5_filter_guarantees_amended [c5profile] c5profile
    (by rw [show filterProfiles [c5profile] = [c5profile] from rfl]; simp)

/-! ## The two documents' skip criteria (claim C9) -/

def c9vtn : JVal :=
  JVal.obj (JObj.cons "filament_notes"
    (arr1 (JVal.str "\x7b\"vendor\":\"V\",\"type\":\"T\",\"name\":\"N\"\x7d")) JObj.nil)

def c9vtnNotes : JVal :=
  JVal.obj (JObj.cons "vendor" (JVal.str "V")
    (JObj.cons "type" (JVal.str "T") (JObj.cons "name" (JVal.str "N") JObj.nil)))

def c9id : JVal :=
  JVal.obj (JObj.cons "filament_notes" (arr1 (JVal.str "\x7b\"id\":\"12345\"\x7d")) JObj.nil)

def c9idNotes : JVal := JVal.obj (JObj.cons "id" (JVal.str "12345") JObj.nil)

/-- C9 counterexample: `addToOptions` does not require the database
criteria in addition to vendor/type/name — a preset whose notes have
vendor, type and name but no truthy id is written by `addToOptions`
(while `addToDatabase` skips it), so its requirements are not
"additional" to the database's id requirement. -/
theorem c9_skip_criteria_counterexample :
    parseNotes c9vtn = some c9vtnNotes
    ∧ truthy (getProp c9vtnNotes "id") = false
    ∧ applyProfile JObj.nil [] c9vtn = []
    ∧ applyOptionProfile JObj.nil c9vtn
        = JObj.cons "V" (JVal.obj (JObj.cons "T" (JVal.str "N") JObj.nil)) JObj.nil :=
  ⟨rfl, rfl, rfl, rfl⟩

/-- C9 (amended): `addToDatabase` skips a preset iff its parsed notes
are null or lack a truthy id (vendor, type, name are not required and
are coerced to the string "undefined" in the built material), whereas
`addToOptions` instead requires truthy vendor, type and name (and does
not require an id); hence a preset whose notes contain only an id gets
a material inserted into the database document while no entry is
written to the options document. -/
theorem c9_skip_criteria_amended :
    (∀ p nv, parseNotes p = some nv →
        (dbNotesSel p = some nv ↔ (truthy nv && truthy (getProp nv "id")) = true))
    ∧ (∀ p, parseNotes p = none → dbNotesSel p = none)
    ∧ (∀ (tmpl : JObj) (list : List JVal) (p : JVal), dbNotesSel p = none →
        applyProfile tmpl list p = list)
    ∧ (∀ (tmpl : JObj) (p nv : JVal), getProp nv "vendor" = JVal.undef →
        lookupField (buildMaterialFromProfile tmpl p nv) "filament_vendor"
          = some (arr1 (JVal.str "undefined")))
    ∧ (∀ p nv, parseNotes p = some nv →
        (optNotesSel p = some nv ↔ (truthy nv && truthy (getProp nv "vendor")
          && truthy (getProp nv "type") && truthy (getProp nv "name")) = true))
    ∧ (∀ (optObj : JObj) (p : JVal), optNotesSel p = none →
        applyOptionProfile optObj p = optObj)
    ∧ (∀ tmpl : JObj, ∃ p nv, parseNotes p = some nv
        ∧ applyProfile tmpl [] p = [JVal.obj (buildMaterialFromProfile tmpl p nv)]
        ∧ applyOptionProfile JObj.nil p = JObj.nil) := by
  refine ⟨?_, ?_, ?_, ?_, ?_, ?_, ?_⟩
  · intro p nv h
    unfold dbNotesSel
    rw [h]
    by_cases hc : (truthy nv && truthy (getProp nv "id")) = true
    · simp [hc]
    · simp [hc]
  · intro p h
    unfold dbNotesSel
    rw [h]
  · intro tmpl list p h
    unfold applyProfile
    rw [h]
  · intro tmpl p nv hv
    unfold buildMaterialFromProfile
    simp only [hv]
    rw [lookupField_updateField_ne _ _ _ _ (by decide : ("filament_notes" : String) ≠ "filament_vendor"),
      lookupField_updateField_ne _ _ _ _ (by decide : ("is_custom_defined" : String) ≠ "filament_vendor"),
      lookupField_updateField_ne _ _ _ _ (by decide : ("from" : String) ≠ "filament_vendor"),
      lookupField_updateField_ne _ _ _ _ (by decide : ("filament_settings_id" : String) ≠ "filament_vendor"),
      lookupField_updateField_ne _ _ _ _ (by decide : ("filament_type" : String) ≠ "filament_vendor"),
      lookupField_updateField_self]
    rfl
  · intro p nv h
    unfold optNotesSel
    rw [h]
    by_cases hc : (truthy nv && truthy (getProp nv "vendor") && truthy (getProp nv "type")
        && truthy (getProp nv "name")) = true
    · simp [hc]
    · simp [hc]
  · intro optObj p h
    unfold applyOptionProfile
    rw [h]
  · intro tmpl
    exact ⟨c9id, c9idNotes, rfl, rfl, rfl⟩

/-- C9 witness: the amended skip criteria applied at the two concrete
presets — notes with only vendor/type/name are skipped by the database
loop, and notes with only an id leave the options document unchanged. -/
theorem c9_skip_witness :
    applyProfile JObj.nil [] c9vtn = []
    ∧ applyOptionProfile JObj.nil c9id = JObj.nil := by
  constructor
  · exact c9_skip_criteria_amended.2.2.1 JObj.nil [] c9vtn rfl
  · exact c9_skip_criteria_amended.2.2.2.2.2.1 JObj.nil c9id rfl

/-! ## findById normalization and the upsert step (claim C10) -/

/-- The update-or-insert step that one iteration of the `addToDatabase`
loop performs on the list for a given notes id and built material:
replace the first entry whose normalized id matches, else append. -/
def upsert (key : String) (m : JVal) : List JVal → List JVal
  | [] => [m]
  | e :: rest => if entryIdString e == key then m :: rest else e :: upsert key m rest

lemma findById_set_upsert (l : List JVal) (key : String) (m : JVal) :
    (match findById l key with
     | some idx => l.set idx m
     | none => l ++ [m]) = upsert key m l := by
  induction l with
  | nil => simp [findById, upsert]
  | cons e rest ih =>
      by_cases h : entryIdString e == key
      · simp [findById, upsert, h]
      · simp only [findById, upsert, h, if_false, Bool.false_eq_true]
        cases hf : findById rest key with
        | none =>
            rw [hf] at ih
            simp [hf, ← ih]
        | some i =>
            rw [hf] at ih
            simp [hf, ← ih, List.set]

/-- The id/material pair one profile contributes to the reconciliation
loop (`none` when the profile is skipped); it does not depend on the
list state. -/
def opOf (tmpl : JObj) (p : JVal) : Option (String × JVal) :=
  match dbNotesSel p with
  | none => none
  | some nv => some (jsToString (getProp nv "id"), JVal.obj (buildMaterialFromProfile tmpl p nv))

lemma applyProfile_eq_upsert (tmpl : JObj) (l : List JVal) (p : JVal) :
    applyProfile tmpl l p
      = (match opOf tmpl p with
         | none => l
         | some km => upsert km.1 km.2 l) := by
  unfold applyProfile opOf
  cases h : dbNotesSel p with
  | none => rfl
  | some nv => simp [← findById_set_upsert]

lemma stableFiveDigitId_ne_empty (s : String) : stableFiveDigitId s ≠ "" := by
  intro h
  obtain ⟨h1, h2⟩ := stableFiveDigitIdNum_range s
  have hlen : (stableFiveDigitId s).length = 5 := by
    rw [stableFiveDigitId_eq]
    exact natToDec_length_five _ h1 h2
  rw [h] at hlen
  simp at hlen

/-- C10: `findById` normalizes both sides — an entry id stored wrapped
in an array is unwrapped to its first element, and the id is converted
to a string, so a bare number 10001 matches the notes id string
"10001"; an entry with no id field compares as the empty string and
never matches a derived 5-digit id; and the first matching entry in
list order is the one replaced by the upsert step. -/
theorem c10_findById_normalization :
    (∀ (fs : JObj) (n : Int), lookupField fs "id" = some (JVal.num n) →
        entryIdString (JVal.obj fs) = intToDec n)
    ∧ (∀ (fs : JObj) (v : JVal) (a : JArr),
        lookupField fs "id" = some (JVal.arr (JArr.cons v a)) →
        v ≠ JVal.null → v ≠ JVal.undef → entryIdString (JVal.obj fs) = jsToString v)
    ∧ (∀ fs : JObj, lookupField fs "id" = none → entryIdString (JVal.obj fs) = "")
    ∧ (∀ (fs : JObj) (s : String), lookupField fs "id" = none →
        entryIdString (JVal.obj fs) ≠ stableFiveDigitId s)
    ∧ (∀ (pre post : List JVal) (e m : JVal) (key : String),
        (∀ e2 ∈ pre, entryIdString e2 ≠ key) → entryIdString e = key →
        upsert key m (pre ++ e :: post) = pre ++ m :: post) := by
  refine ⟨?_, ?_, ?_, ?_, ?_⟩
  · intro fs n h
    simp [entryIdString, getProp, h, unwrapFirst, jsToString, jsToStringScalar]
  · intro fs v a h hn hu
    cases v with
    | null => exact absurd rfl hn
    | undef => exact absurd rfl hu
    | str s => simp [entryIdString, getProp, h, unwrapFirst, jsToString]
    | num n => simp [entryIdString, getProp, h, unwrapFirst, jsToString]
    | bool b => simp [entryIdString, getProp, h, unwrapFirst, jsToString]
    | arr x => simp [entryIdString, getProp, h, unwrapFirst, jsToString]
    | obj x => simp [entryIdString, getProp, h, unwrapFirst, jsToString]
  · intro fs h
    simp [entryIdString, getProp, h, unwrapFirst]
  · intro fs s h
    intro heq
    apply stableFiveDigitId_ne_empty s
    rw [← heq]
    simp [entryIdString, getProp, h, unwrapFirst]
  · intro pre
    induction pre with
    | nil =>
        intro post e m key _ he
        simp [upsert, he]
    | cons q pre ih =>
        intro post e m key hpre he
        have hq : entryIdString q ≠ key := hpre q (by simp)
        simp only [List.cons_append, upsert, beq_iff_eq, hq, if_false]
        exact congrArg (q :: ·) (ih post e m key (fun e2 h2 => hpre e2 (by simp [h2])) he)

def c10entryBare : JVal := JVal.obj (JObj.cons "id" (JVal.num 10001) JObj.nil)

def c10entryWrapped : JVal := JVal.obj (JObj.cons "id" (arr1 (JVal.num 10001)) JObj.nil)

def c10entryNoId : JVal := JVal.obj (JObj.cons "name" (JVal.str "x") JObj.nil)

def c10mat : JVal := JVal.obj (JObj.cons "id" (arr1 (JVal.str "10001")) JObj.nil)

/-- C10 witness: a bare numeric id 10001 and a wrapped one both
normalize to the string "10001"; an entry without id normalizes to the
empty string and differs from a derived id; and with two entries
matching "10001" in the list, the first is the one replaced. -/
theorem c10_findById_witness :
    entryIdString c10entryBare = intToDec 10001
    ∧ intToDec 10001 = "10001"
    ∧ entryIdString c10entryWrapped = jsToString (JVal.num 10001)
    ∧ entryIdString c10entryNoId = ""
    ∧ entryIdString c10entryNoId ≠ stableFiveDigitId "V|T|N"
    ∧ upsert "10001" c10mat ([c10entryNoId] ++ c10entryBare :: [c10entryWrapped])
        = [c10entryNoId] ++ c10mat :: [c10entryWrapped] := by
  refine ⟨c10_findById_normalization.1 _ 10001 rfl, rfl,
    c10_findById_normalization.2.1 _ (JVal.num 10001) JArr.nil rfl (by simp) (by simp),
    c10_findById_normalization.2.2.1 _ rfl,
    c10_findById_normalization.2.2.2.1 _ "V|T|N" rfl, ?_⟩
  exact c10_findById_normalization.2.2.2.2 [c10entryNoId] [c10entryWrapped]
    c10entryBare c10mat "10001" (by intro e2 h2; simp at h2; subst h2; decide) (by decide)

/-! ## Frame property of reconciliation (claim C3) -/

lemma dbNotesSel_spec (p nv : JVal) (h : dbNotesSel p = some nv) :
    parseNotes p = some nv ∧ (truthy nv && truthy (getProp nv "id")) = true := by
  unfold dbNotesSel at h
  cases hp : parseNotes p with
  | none => rw [hp] at h; exact absurd h (by simp)
  | some nv2 =>
      rw [hp] at h
      by_cases hc : (truthy nv2 && truthy (getProp nv2 "id")) = true
      · simp only [hc, if_true] at h
        injection h with h2
        subst h2
        exact ⟨rfl, hc⟩
      · simp [hc] at h

lemma upsert_get?_of_ne (key : String) (m e : JVal) (hne : entryIdString e ≠ key) :
    ∀ (l : List JVal) (i : Nat), l.get? i = some e → (upsert key m l).get? i = some e := by
  intro l
  induction l with
  | nil => intro i h; simp [List.get?] at h
  | cons q rest ih =>
      intro i h
      by_cases hq : (entryIdString q == key) = true
      · simp only [upsert, hq, if_true]
        cases i with
        | zero =>
            simp only [List.get?] at h
            injection h with h2
            subst h2
            exact absurd (by simpa using hq) hne
        | succ i => simpa [List.get?] using h
      · simp only [upsert, hq, if_false]
        cases i with
        | zero => simpa [List.get?] using h
        | succ i =>
            simp only [List.get?] at h ⊢
            exact ih i h

lemma upsert_length_ge (key : String) (m : JVal) :
    ∀ l : List JVal, l.length ≤ (upsert key m l).length := by
  intro l
  induction l with
  | nil => simp [upsert]
  | cons q rest ih =>
      by_cases hq : (entryIdString q == key) = true
      · simp [upsert, hq]
      · simp [upsert, hq]
        omega

lemma foldl_applyProfile_preserves (tmpl : JObj) :
    ∀ (profiles : List JVal) (l : List JVal) (i : Nat) (e : JVal),
      (∀ p ∈ profiles, ∀ nv, parseNotes p = some nv →
        (truthy nv && truthy (getProp nv "id")) = true →
        jsToString (getProp nv "id") ≠ entryIdString e) →
      l.get? i = some e →
      (profiles.foldl (applyProfile tmpl) l).get? i = some e := by
  intro profiles
  induction profiles with
  | nil => intro l i e _ h; exact h
  | cons p rest ih =>
      intro l i e hcond h
      rw [List.foldl_cons]
      apply ih (applyProfile tmpl l p) i e (fun p2 h2 => hcond p2 (by simp [h2]))
      rw [applyProfile_eq_upsert]
      cases hop : opOf tmpl p with
      | none => exact h
      | some km =>
          unfold opOf at hop
          cases hsel : dbNotesSel p with
          | none => rw [hsel] at hop; exact absurd hop (by simp)
          | some nv =>
              rw [hsel] at hop
              injection hop with hop2
              obtain ⟨hparse, htr⟩ := dbNotesSel_spec p nv hsel
              have hne : entryIdString e ≠ km.1 := by
                rw [← hop2]
                exact fun hx => hcond p (by simp) nv hparse htr (by rw [hx])
              exact upsert_get?_of_ne km.1 km.2 e hne l i h

lemma foldl_applyProfile_length (tmpl : JObj) :
    ∀ (profiles : List JVal) (l : List JVal),
      l.length ≤ (profiles.foldl (applyProfile tmpl) l).length := by
  intro profiles
  induction profiles with
  | nil => intro l; exact Nat.le_refl _
  | cons p rest ih =>
      intro l
      rw [List.foldl_cons]
      refine Nat.le_trans ?_ (ih (applyProfile tmpl l p))
      rw [applyProfile_eq_upsert]
      cases opOf tmpl p with
      | none => exact Nat.le_refl _
      | some km => exact upsert_length_ge km.1 km.2 l

lemma addToDatabaseRun_ok_shape (tmpl : JObj) (dbObj : JVal) (profiles : List JVal)
    (version : String) (db1 : JVal)
    (h : addToDatabaseRun tmpl dbObj profiles version = Except.ok db1) :
    ∃ dbFields resFields l, dbObj = JVal.obj dbFields
      ∧ lookupField dbFields "result" = some (JVal.obj resFields)
      ∧ lookupField resFields "list" = some (JVal.arr l)
      ∧ db1 = JVal.obj (updateField dbFields "result" (JVal.obj
          (updateField (updateField (updateField resFields "list"
            (JVal.arr (JArr.ofList (profiles.foldl (applyProfile tmpl) l.toList))))
            "count" (JVal.num (profiles.foldl (applyProfile tmpl) l.toList).length))
            "version" (JVal.str version)))) := by
  cases dbObj with
  | obj dbFields =>
      cases hres : lookupField dbFields "result" with
      | none => simp [addToDatabaseRun, hres] at h
      | some v =>
        cases v with
        | obj resFields =>
            cases hlist : lookupField resFields "list" with
            | none => simp [addToDatabaseRun, hres, hlist] at h
            | some w =>
              cases w with
              | arr l =>
                  refine ⟨dbFields, resFields, l, rfl, hres, hlist, ?_⟩
                  have h2 := (addToDatabaseRun_ok_eq tmpl profiles version
                    dbFields resFields l hres hlist).symm.trans h
                  injection h2 with h3
                  exact h3.symm
              | str s => simp [addToDatabaseRun, hres, hlist] at h
              | num n => simp [addToDatabaseRun, hres, hlist] at h
              | bool b => simp [addToDatabaseRun, hres, hlist] at h
              | null => simp [addToDatabaseRun, hres, hlist] at h
              | undef => simp [addToDatabaseRun, hres, hlist] at h
              | obj fs => simp [addToDatabaseRun, hres, hlist] at h
        | str s => simp [addToDatabaseRun, hres] at h
        | num n => simp [addToDatabaseRun, hres] at h
        | bool b => simp [addToDatabaseRun, hres] at h
        | null => simp [addToDatabaseRun, hres] at h
        | undef => simp [addToDatabaseRun, hres] at h
        | arr a => simp [addToDatabaseRun, hres] at h
  | str s => simp [addToDatabaseRun] at h
  | num n => simp [addToDatabaseRun] at h
  | bool b => simp [addToDatabaseRun] at h
  | null => simp [addToDatabaseRun] at h
  | undef => simp [addToDatabaseRun] at h
  | arr a => simp [addToDatabaseRun] at h

lemma getList_of_result_doc (dbFields resFields : JObj) (list2 : List JVal)
    (cv vv : JVal) :
    getList (JVal.obj (updateField dbFields "result" (JVal.obj
      (updateField (updateField (updateField resFields "list" (JVal.arr (JArr.ofList list2)))
        "count" cv) "version" vv)))) = Except.ok list2 := by
  unfold getList
  simp [getProp, lookupField_updateField_self,
    lookupField_updateField_ne _ _ _ _ (by decide : ("version" : String) ≠ "list"),
    lookupField_updateField_ne _ _ _ _ (by decide : ("count" : String) ≠ "list"),
    JArr.toList_ofList]

/-- C3: reconciliation never deletes and never alters unmatched
entries — every baseline entry whose normalized id differs from every
input preset's selected notes id is present unchanged, at its original
position, in the output list (which is never shorter than the
baseline). -/
theorem c3_unmatched_entries_preserved :
    ∀ (tmpl : JObj) (dbObj : JVal) (profiles : List JVal) (version : String)
      (db1 : JVal) (l0 l1 : List JVal) (i : Nat) (e : JVal),
      addToDatabaseRun tmpl dbObj profiles version = Except.ok db1 →
      getList dbObj = Except.ok l0 →
      getList db1 = Except.ok l1 →
      l0.get? i = some e →
      (∀ p ∈ profiles, ∀ nv, parseNotes p = some nv →
        (truthy nv && truthy (getProp nv "id")) = true →
        jsToString (getProp nv "id") ≠ entryIdString e) →
      l1.get? i = some e ∧ l0.length ≤ l1.length := by
  intro tmpl dbObj profiles version db1 l0 l1 i e hrun hl0 hl1 hget hcond
  obtain ⟨dbFields, resFields, l, rfl, hres, hlist, hdb1⟩ :=
    addToDatabaseRun_ok_shape tmpl dbObj profiles version db1 hrun
  have hl0' : l0 = l.toList := by
    have h2 := (getList_obj_eq dbFields resFields l hres hlist).symm.trans hl0
    injection h2 with h3
    exact h3.symm
  have hl1' : l1 = profiles.foldl (applyProfile tmpl) l.toList := by
    rw [hdb1] at hl1
    have h2 := (getList_of_result_doc dbFields resFields
      (profiles.foldl (applyProfile tmpl) l.toList) _ _).symm.trans hl1
    injection h2 with h3
    exact h3.symm
  subst hl0' hl1'
  constructor
  · exact foldl_applyProfile_preserves tmpl profiles l.toList i e hcond hget
  · exact foldl_applyProfile_length tmpl profiles l.toList

def c3entry : JVal := JVal.obj (JObj.cons "id" (arr1 (JVal.str "20000")) JObj.nil)

def c3db : JVal :=
  JVal.obj (JObj.cons "result"
    (JVal.obj (JObj.cons "list" (JVal.arr (JArr.cons c3entry JArr.nil)) JObj.nil)) JObj.nil)

def c3profile : JVal :=
  JVal.obj (JObj.cons "filament_notes"
    (arr1 (JVal.str "\x7b\"id\":\"11111\",\"vendor\":\"V\",\"type\":\"T\",\"name\":\"N\"\x7d"))
    JObj.nil)

/-- C3 witness: a baseline entry with id "20000" survives unchanged, at
position 0, a run that inserts a preset with notes id "11111". -/
theorem c3_unmatched_witness :
    ∃ db1 l1, addToDatabaseRun JObj.nil c3db [c3profile] "7" = Except.ok db1
      ∧ getList db1 = Except.ok l1
      ∧ l1.get? 0 = some c3entry ∧ 1 ≤ l1.length := by
  refine ⟨_, _, rfl, rfl, ?_⟩
  have h := c3_unmatched_entries_preserved JObj.nil c3db [c3profile] "7" _ _ _ 0 c3entry
    rfl rfl rfl rfl ?_
  · exact h
  · intro p hp nv hparse htr
    have hp2 : p = c3profile := by simpa using hp
    subst hp2
    have : nv = JVal.obj (JObj.cons "id" (JVal.str "11111")
      (JObj.cons "vendor" (JVal.str "V")
        (JObj.cons "type" (JVal.str "T") (JObj.cons "name" (JVal.str "N") JObj.nil)))) := by
      have : parseNotes c3profile = some (JVal.obj (JObj.cons "id" (JVal.str "11111")
        (JObj.cons "vendor" (JVal.str "V")
          (JObj.cons "type" (JVal.str "T") (JObj.cons "name" (JVal.str "N") JObj.nil))))) := rfl
      rw [this] at hparse
      injection hparse with h2
      exact h2.symm
    subst this
    decide

/-! Proof infrastructure for idempotence of the reconciliation loop. -/

/-- Replace the first entry whose normalized id is `key` (no-op when no
entry matches); `upsert` agrees with this when the key is present. -/
def setFirst (key : String) (m : JVal) : List JVal → List JVal
  | [] => []
  | e :: rest => if entryIdString e == key then m :: rest else e :: setFirst key m rest

/-- Whether some entry of the list has the given normalized id. -/
def containsKey (l : List JVal) (k : String) : Bool :=
  l.any fun e => entryIdString e == k

/-- The first entry with the given normalized id. -/
def firstEntry (l : List JVal) (k : String) : Option JVal :=
  l.find? fun e => entryIdString e == k

/-- Apply a sequence of keyed upserts from the left. -/
def applyOps (ops : List (String × JVal)) (l : List JVal) : List JVal :=
  ops.foldl (fun acc km => upsert km.1 km.2 acc) l

/-- The material of the last operation carrying the given key. -/
def lastMat : List (String × JVal) → String → Option JVal
  | [], _ => none
  | km :: rest, key =>
      match lastMat rest key with
      | some m2 => some m2
      | none => if km.1 == key then some km.2 else none

/-- Remove one key from a key-indexed assignment. -/
def keyRemove (f : String → Option JVal) (k : String) : String → Option JVal :=
  fun k2 => if k2 == k then none else f k2

/-- Replace, for each key in the assignment's domain, the first entry
carrying that key. -/
def patchKeys (f : String → Option JVal) : List JVal → List JVal
  | [] => []
  | e :: rest =>
      match f (entryIdString e) with
      | some m => m :: patchKeys (keyRemove f (entryIdString e)) rest
      | none => e :: patchKeys f rest

/-- All operations carry materials whose normalized id is their key. -/
def wellKeyed (ops : List (String × JVal)) : Prop :=
  ∀ km ∈ ops, entryIdString km.2 = km.1

lemma upsert_eq_setFirst (key : String) (m : JVal) :
    ∀ l : List JVal, containsKey l key = true → upsert key m l = setFirst key m l := by
  intro l
  induction l with
  | nil => intro h; simp [containsKey] at h
  | cons e rest ih =>
      intro h
      by_cases he : (entryIdString e == key) = true
      · simp [upsert, setFirst, he]
      · have h2 : containsKey rest key = true := by
          simp [containsKey] at h ⊢
          rcases h with h | h
          · exact absurd (by simp [h]) he
          · exact h
        simp [upsert, setFirst, he, ih h2]

lemma containsKey_setFirst (key : String) (m : JVal) (hm : entryIdString m = key) :
    ∀ (l : List JVal) (k2 : String), containsKey (setFirst key m l) k2 = containsKey l k2 := by
  intro l
  induction l with
  | nil => intro k2; rfl
  | cons e rest ih =>
      intro k2
      by_cases he : (entryIdString e == key) = true
      · have he2 : entryIdString e = key := by simpa using he
        simp [setFirst, he, containsKey, hm, he2]
      · simp only [setFirst, he, if_false, Bool.false_eq_true]
        simp only [containsKey, List.any_cons] at ih ⊢
        rw [ih k2]

lemma containsKey_upsert_self (key : String) (m : JVal) (hm : entryIdString m = key) :
    ∀ l : List JVal, containsKey (upsert key m l) key = true := by
  intro l
  induction l with
  | nil => simp [upsert, containsKey, hm]
  | cons e rest ih =>
      by_cases he : (entryIdString e == key) = true
      · simp [upsert, he, containsKey, hm]
      · simp only [upsert, he, if_false, Bool.false_eq_true]
        simp only [containsKey, List.any_cons] at ih ⊢
        simp [ih]

lemma containsKey_upsert_mono (key : String) (m : JVal) (k2 : String)
    (hm : entryIdString m = key) :
    ∀ l : List JVal, containsKey l k2 = true → containsKey (upsert key m l) k2 = true := by
  intro l
  induction l with
  | nil => intro h; simp [containsKey] at h
  | cons e rest ih =>
      intro h
      by_cases he : (entryIdString e == key) = true
      · have he2 : entryIdString e = key := by simpa using he
        simp only [containsKey, List.any_cons] at h ⊢
        simp only [upsert, he, if_true]
        simp only [List.any_cons]
        rcases Bool.or_eq_true_iff.1 h with h2 | h2
        · have : (entryIdString m == k2) = true := by
            rw [hm, ← he2]
            exact h2
          simp [this]
        · simp [h2]
      · simp only [upsert, he, if_false, Bool.false_eq_true]
        simp only [containsKey, List.any_cons] at h ⊢
        rcases Bool.or_eq_true_iff.1 h with h2 | h2
        · simp [h2]
        · have h3 := ih h2
          simp only [containsKey] at h3
          simp [h3]

lemma firstEntry_upsert_self (key : String) (m : JVal) (hm : entryIdString m = key) :
    ∀ l : List JVal, firstEntry (upsert key m l) key = some m := by
  intro l
  induction l with
  | nil => simp [upsert, firstEntry, List.find?, hm]
  | cons e rest ih =>
      by_cases he : (entryIdString e == key) = true
      · simp [upsert, he, firstEntry, List.find?, hm]
      · simp only [upsert, he, if_false, Bool.false_eq_true]
        simp only [firstEntry, List.find?] at ih ⊢
        simp [he, ih]

lemma firstEntry_upsert_other (key k0 : String) (m : JVal)
    (hm : entryIdString m = key) (hne : key ≠ k0) :
    ∀ l : List JVal, firstEntry (upsert key m l) k0 = firstEntry l k0 := by
  intro l
  induction l with
  | nil =>
      have : (entryIdString m == k0) = false := by simp [hm, hne]
      simp [upsert, firstEntry, List.find?, this]
  | cons e rest ih =>
      by_cases he : (entryIdString e == key) = true
      · have he2 : entryIdString e = key := by simpa using he
        have h1 : (entryIdString m == k0) = false := by simp [hm, hne]
        have h2 : (entryIdString e == k0) = false := by simp [he2, hne]
        simp [upsert, he, firstEntry, List.find?, h1, h2]
      · simp only [upsert, he, if_false, Bool.false_eq_true]
        simp only [firstEntry, List.find?] at ih ⊢
        by_cases h2 : (entryIdString e == k0) = true
        · simp [h2]
        · simp only [h2, Bool.false_eq_true, if_false]
          exact ih

lemma lastMat_none_iff (key : String) :
    ∀ ops : List (String × JVal), lastMat ops key = none ↔ ∀ km ∈ ops, km.1 ≠ key := by
  intro ops
  induction ops with
  | nil => simp [lastMat]
  | cons km rest ih =>
      constructor
      · intro h
        unfold lastMat at h
        cases hrest : lastMat rest key with
        | some m2 => rw [hrest] at h; simp at h
        | none =>
            rw [hrest] at h
            by_cases hk : (km.1 == key) = true
            · simp [hk] at h
            · intro km2 h2
              rcases List.mem_cons.1 h2 with h3 | h3
              · subst h3; simpa using hk
              · exact (ih.1 hrest) km2 h3
      · intro h
        unfold lastMat
        rw [ih.2 (fun km2 h2 => h km2 (List.mem_cons_of_mem _ h2))]
        have : (km.1 == key) = false := by simpa using h km (List.mem_cons_self _ _)
        simp [this]

lemma firstEntry_applyOps_other (k0 : String) :
    ∀ (ops : List (String × JVal)) (l : List JVal), wellKeyed ops →
      (∀ km ∈ ops, km.1 ≠ k0) →
      firstEntry (applyOps ops l) k0 = firstEntry l k0 := by
  intro ops
  induction ops with
  | nil => intro l _ _; rfl
  | cons km rest ih =>
      intro l hwk hne
      have h1 : entryIdString km.2 = km.1 := hwk km (List.mem_cons_self _ _)
      have h2 : km.1 ≠ k0 := hne km (List.mem_cons_self _ _)
      show firstEntry (applyOps rest (upsert km.1 km.2 l)) k0 = firstEntry l k0
      rw [ih (upsert km.1 km.2 l) (fun km2 hm => hwk km2 (List.mem_cons_of_mem _ hm))
        (fun km2 hm => hne km2 (List.mem_cons_of_mem _ hm))]
      exact firstEntry_upsert_other km.1 k0 km.2 h1 h2 l

lemma patchKeys_congr :
    ∀ (l : List JVal) (f g : String → Option JVal), (∀ k, f k = g k) →
      patchKeys f l = patchKeys g l := by
  intro l
  induction l with
  | nil => intro f g h; rfl
  | cons e r ih =>
      intro f g h
      unfold patchKeys
      rw [h (entryIdString e)]
      cases g (entryIdString e) with
      | some m =>
          rw [ih (keyRemove f (entryIdString e)) (keyRemove g (entryIdString e))
            (fun k => by unfold keyRemove; rw [h k])]
      | none => rw [ih f g h]

lemma patchKeys_none : ∀ l : List JVal, patchKeys (fun _ => none) l = l := by
  intro l
  induction l with
  | nil => rfl
  | cons e r ih => simp [patchKeys, ih]

lemma patchKeys_setFirst (key : String) (m : JVal) (hm : entryIdString m = key) :
    ∀ (l : List JVal) (f : String → Option JVal), containsKey l key = true →
      patchKeys f (setFirst key m l)
        = patchKeys (fun k2 => if k2 == key then optOr (f key) (some m) else f k2) l := by
  intro l
  induction l with
  | nil => intro f h; simp [containsKey] at h
  | cons e r ih =>
      intro f h
      by_cases he : (entryIdString e == key) = true
      · have he2 : entryIdString e = key := by simpa using he
        rw [show setFirst key m (e :: r) = m :: r by simp [setFirst, he]]
        unfold patchKeys
        rw [hm, he2]
        cases hf : f key with
        | some fm =>
            have hg : (if (key == key) = true then optOr (some fm) (some m) else some fm)
                = some fm := by simp [optOr]
            simp only [hg]
            refine congrArg (fm :: ·) (patchKeys_congr r _ _ (fun k => ?_))
            unfold keyRemove
            by_cases hk : (k == key) = true
            · simp [hk]
            · simp [hk, hf]
        | none =>
            have hg : (if (key == key) = true then optOr none (some m) else none)
                = some m := by simp [optOr]
            simp only [hg]
            refine congrArg (m :: ·) (patchKeys_congr r _ _ (fun k => ?_))
            unfold keyRemove
            by_cases hk : (k == key) = true
            · have hke : k = key := by simpa using hk
              simp [hk, hke, hf]
            · simp [hk]
      · have hcr : containsKey r key = true := by
          simp only [containsKey, List.any_cons] at h
          rcases Bool.or_eq_true_iff.1 h with h2 | h2
          · exact absurd h2 he
          · exact h2
        have hek : entryIdString e ≠ key := by simpa using he
        rw [show setFirst key m (e :: r) = e :: setFirst key m r by simp [setFirst, he]]
        unfold patchKeys
        rw [show (if (entryIdString e == key) = true then optOr (f key) (some m)
            else f (entryIdString e)) = f (entryIdString e) by simp [he]]
        cases hf : f (entryIdString e) with
        | some fm =>
            rw [ih (keyRemove f (entryIdString e)) hcr]
            refine congrArg (fm :: ·) (patchKeys_congr r _ _ (fun k => ?_))
            unfold keyRemove
            by_cases hk1 : (k == key) = true
            · have hk1e : k = key := by simpa using hk1
              have hky : ¬(key = entryIdString e) := fun hx => hek hx.symm
              simp [hk1, hk1e, hky]
            · simp [hk1]
        | none =>
            rw [ih f hcr]

lemma patchKeys_extend (k0 : String) (m0 : JVal) :
    ∀ (l : List JVal) (f : String → Option JVal), f k0 = none →
      (∀ e0, firstEntry l k0 = some e0 → e0 = m0) →
      patchKeys (fun k2 => if k2 == k0 then some m0 else f k2) l = patchKeys f l := by
  intro l
  induction l with
  | nil => intro f _ _; rfl
  | cons e r ih =>
      intro f hf0 hfe
      by_cases he : (entryIdString e == k0) = true
      · have he2 : entryIdString e = k0 := by simpa using he
        have hem : e = m0 := hfe e (by simp [firstEntry, List.find?, he])
        unfold patchKeys
        rw [he2]
        have hg : (if (k0 == k0) = true then some m0 else none) = some m0 := by simp
        simp only [hf0, hg, hem]
        refine congrArg (m0 :: ·) (patchKeys_congr r _ _ (fun k => ?_))
        unfold keyRemove
        by_cases hk : (k == k0) = true
        · have hke : k = k0 := by simpa using hk
          simp [hk, hke, hf0]
        · simp [hk]
      · have hne2 : entryIdString e ≠ k0 := by simpa using he
        have hfr : ∀ e0, firstEntry r k0 = some e0 → e0 = m0 := by
          intro e0 h0
          exact hfe e0 (by simp [firstEntry, List.find?, he] at h0 ⊢; exact h0)
        unfold patchKeys
        rw [show (if (entryIdString e == k0) = true then some m0 else f (entryIdString e))
            = f (entryIdString e) by simp [he]]
        cases hf : f (entryIdString e) with
        | some fm =>
            have step : patchKeys (fun k2 => if (k2 == k0) = true
                then some m0 else keyRemove f (entryIdString e) k2) r
                = patchKeys (keyRemove f (entryIdString e)) r := by
              refine ih (keyRemove f (entryIdString e)) ?_ hfr
              unfold keyRemove
              by_cases hk0 : (k0 == entryIdString e) = true
              · simp [hk0]
              · simp [hk0, hf0]
            rw [← step]
            refine congrArg (fm :: ·) (patchKeys_congr r _ _ (fun k => ?_))
            unfold keyRemove
            by_cases hk : (k == entryIdString e) = true
            · have hke : k = entryIdString e := by simpa using hk
              have : (k == k0) = false := by
                simp [hke]
                exact hne2
              simp [hk, this]
            · simp [hk]
        | none => exact congrArg (e :: ·) (ih f hf0 hfr)

lemma lastMat_cons (k : String) (m : JVal) (rest : List (String × JVal)) (key : String) :
    lastMat ((k, m) :: rest) key
      = if key == k then optOr (lastMat rest key) (some m) else lastMat rest key := by
  have h0 : lastMat ((k, m) :: rest) key
      = (match lastMat rest key with
         | some m2 => some m2
         | none => if k == key then some m else none) := rfl
  rw [h0]
  cases h : lastMat rest key with
  | some m2 => by_cases hk : (key == k) = true <;> simp [hk, optOr]
  | none =>
      by_cases hk : (key == k) = true
      · have h2 : key = k := by simpa using hk
        simp [hk, h2, optOr]
      · have h2 : key ≠ k := by simpa using hk
        have h3 : (k == key) = false := by
          simp
          exact fun hx => h2 hx.symm
        simp [hk, h3]

lemma applyOps_cons (k : String) (m : JVal) (rest : List (String × JVal)) (l : List JVal) :
    applyOps ((k, m) :: rest) l = applyOps rest (upsert k m l) := rfl

lemma applyOps_eq_patchKeys :
    ∀ (ops : List (String × JVal)) (l : List JVal), wellKeyed ops →
      (∀ km ∈ ops, containsKey l km.1 = true) →
      applyOps ops l = patchKeys (lastMat ops) l := by
  intro ops
  induction ops with
  | nil =>
      intro l _ _
      rw [show applyOps [] l = l from rfl,
        patchKeys_congr l (lastMat []) (fun _ => none) (fun k => rfl), patchKeys_none]
  | cons km rest ih =>
      intro l hwk hck
      obtain ⟨k, m⟩ := km
      have hm : entryIdString m = k := hwk (k, m) (List.mem_cons_self _ _)
      have hckk : containsKey l k = true := hck (k, m) (List.mem_cons_self _ _)
      rw [applyOps_cons, upsert_eq_setFirst k m l hckk]
      rw [ih (setFirst k m l) (fun km2 h2 => hwk km2 (List.mem_cons_of_mem _ h2))
        (fun km2 h2 => by
          rw [containsKey_setFirst k m hm l km2.1]
          exact hck km2 (List.mem_cons_of_mem _ h2))]
      rw [patchKeys_setFirst k m hm l (lastMat rest) hckk]
      refine patchKeys_congr l _ _ (fun k2 => ?_)
      rw [lastMat_cons]
      by_cases hk : (k2 == k) = true
      · have hk2 : k2 = k := by simpa using hk
        simp [hk, hk2]
      · simp [hk]

lemma patchKeys_applyOps_fixed :
    ∀ (ops : List (String × JVal)) (l : List JVal), wellKeyed ops →
      patchKeys (lastMat ops) (applyOps ops l) = applyOps ops l := by
  intro ops
  induction ops with
  | nil =>
      intro l _
      rw [patchKeys_congr _ (lastMat []) (fun _ => none) (fun k => rfl), patchKeys_none]
  | cons km rest ih =>
      intro l hwk
      obtain ⟨k, m⟩ := km
      have hm : entryIdString m = k := hwk (k, m) (List.mem_cons_self _ _)
      have hwr : wellKeyed rest := fun km2 h2 => hwk km2 (List.mem_cons_of_mem _ h2)
      rw [applyOps_cons]
      cases hrest : lastMat rest k with
      | some m2 =>
          rw [patchKeys_congr _ (lastMat ((k, m) :: rest)) (lastMat rest) (fun k2 => by
            rw [lastMat_cons]
            by_cases hk : (k2 == k) = true
            · have hk2 : k2 = k := by simpa using hk
              rw [hk2, hrest]
              simp [hk, optOr]
            · simp [hk])]
          exact ih (upsert k m l) hwr
      | none =>
          rw [patchKeys_congr _ (lastMat ((k, m) :: rest))
            (fun k2 => if k2 == k then some m else lastMat rest k2) (fun k2 => by
              rw [lastMat_cons]
              by_cases hk : (k2 == k) = true
              · have hk2 : k2 = k := by simpa using hk
                rw [hk2, hrest]
                simp [hk, optOr]
              · simp [hk])]
          rw [patchKeys_extend k m (applyOps rest (upsert k m l)) (lastMat rest) hrest ?_]
          · exact ih (upsert k m l) hwr
          · intro e0 h0
            rw [firstEntry_applyOps_other k rest (upsert k m l) hwr
              ((lastMat_none_iff k rest).1 hrest)] at h0
            rw [firstEntry_upsert_self k m hm l] at h0
            injection h0 with h1
            exact h1.symm

lemma containsKey_applyOps_mono :
    ∀ (ops : List (String × JVal)) (l : List JVal) (k2 : String), wellKeyed ops →
      containsKey l k2 = true → containsKey (applyOps ops l) k2 = true := by
  intro ops
  induction ops with
  | nil => intro l k2 _ h; exact h
  | cons km rest ih =>
      intro l k2 hwk h
      obtain ⟨k, m⟩ := km
      have hm : entryIdString m = k := hwk (k, m) (List.mem_cons_self _ _)
      rw [applyOps_cons]
      exact ih (upsert k m l) k2 (fun km2 h2 => hwk km2 (List.mem_cons_of_mem _ h2))
        (containsKey_upsert_mono k m k2 hm l h)

lemma containsKey_applyOps_self :
    ∀ (ops : List (String × JVal)) (l : List JVal), wellKeyed ops →
      ∀ km ∈ ops, containsKey (applyOps ops l) km.1 = true := by
  intro ops
  induction ops with
  | nil => intro l _ km h; simp at h
  | cons km0 rest ih =>
      intro l hwk km h
      obtain ⟨k, m⟩ := km0
      have hm : entryIdString m = k := hwk (k, m) (List.mem_cons_self _ _)
      have hwr : wellKeyed rest := fun km2 h2 => hwk km2 (List.mem_cons_of_mem _ h2)
      rcases List.mem_cons.1 h with h2 | h2
      · subst h2
        rw [applyOps_cons]
        exact containsKey_applyOps_mono rest (upsert k m l) k hwr
          (containsKey_upsert_self k m hm l)
      · rw [applyOps_cons]
        exact ih (upsert k m l) hwr km h2

lemma applyOps_idem (ops : List (String × JVal)) (l : List JVal) (hwk : wellKeyed ops) :
    applyOps ops (applyOps ops l) = applyOps ops l := by
  rw [applyOps_eq_patchKeys ops (applyOps ops l) hwk
    (fun km h => containsKey_applyOps_self ops l hwk km h)]
  exact patchKeys_applyOps_fixed ops l hwk

lemma applyOps_cons2 (km : String × JVal) (rest : List (String × JVal)) (l : List JVal) :
    applyOps (km :: rest) l = applyOps rest (upsert km.1 km.2 l) := rfl

lemma foldl_applyProfile_eq_applyOps (tmpl : JObj) :
    ∀ (profiles : List JVal) (l : List JVal),
      profiles.foldl (applyProfile tmpl) l = applyOps (profiles.filterMap (opOf tmpl)) l := by
  intro profiles
  induction profiles with
  | nil => intro l; rfl
  | cons p rest ih =>
      intro l
      rw [List.foldl_cons, ih, applyProfile_eq_upsert, List.filterMap_cons]
      cases hop : opOf tmpl p with
      | none => rfl
      | some km => rw [applyOps_cons2]

lemma entryIdString_buildMaterial (tmpl : JObj) (p nv : JVal) :
    entryIdString (JVal.obj (buildMaterialFromProfile tmpl p nv))
      = jsToString (getProp nv "id") := by
  have h : lookupField (buildMaterialFromProfile tmpl p nv) "id"
      = some (arr1 (JVal.str (jsToString (getProp nv "id")))) := by
    unfold buildMaterialFromProfile
    rw [lookupField_updateField_ne _ _ _ _ (by decide : ("filament_notes" : String) ≠ "id"),
      lookupField_updateField_ne _ _ _ _ (by decide : ("is_custom_defined" : String) ≠ "id"),
      lookupField_updateField_ne _ _ _ _ (by decide : ("from" : String) ≠ "id"),
      lookupField_updateField_ne _ _ _ _ (by decide : ("filament_settings_id" : String) ≠ "id"),
      lookupField_updateField_ne _ _ _ _ (by decide : ("filament_type" : String) ≠ "id"),
      lookupField_updateField_ne _ _ _ _ (by decide : ("filament_vendor" : String) ≠ "id"),
      lookupField_updateField_ne _ _ _ _ (by decide : ("filament_id" : String) ≠ "id"),
      lookupField_updateField_ne _ _ _ _ (by decide : ("name" : String) ≠ "id"),
      lookupField_updateField_self]
  unfold entryIdString
  rw [show getProp (JVal.obj (buildMaterialFromProfile tmpl p nv)) "id"
      = (lookupField (buildMaterialFromProfile tmpl p nv) "id").getD JVal.undef from rfl, h]
  simp [arr1, unwrapFirst, jsToString, jsToStringScalar]

lemma wellKeyed_opOf (tmpl : JObj) (profiles : List JVal) :
    wellKeyed (profiles.filterMap (opOf tmpl)) := by
  intro km h
  rcases List.mem_filterMap.1 h with ⟨p, _, hop⟩
  unfold opOf at hop
  cases hsel : dbNotesSel p with
  | none => rw [hsel] at hop; simp at hop
  | some nv =>
      rw [hsel] at hop
      injection hop with h2
      rw [← h2]
      exact entryIdString_buildMaterial tmpl p nv

lemma matchCount_cons_pos (e : JVal) (l : List JVal) (s : String)
    (h : (entryIdString e == s) = true) : matchCount (e :: l) s = matchCount l s + 1 := by
  simp [matchCount, List.filter_cons, h]

lemma matchCount_cons_neg (e : JVal) (l : List JVal) (s : String)
    (h : ¬ (entryIdString e == s) = true) : matchCount (e :: l) s = matchCount l s := by
  simp [matchCount, List.filter_cons, h]

lemma matchCount_setFirst (key : String) (m : JVal) (hm : entryIdString m = key) :
    ∀ (l : List JVal) (s : String), matchCount (setFirst key m l) s = matchCount l s := by
  intro l
  induction l with
  | nil => intro s; rfl
  | cons e r ih =>
      intro s
      by_cases he : (entryIdString e == key) = true
      · have he2 : entryIdString e = key := by simpa using he
        rw [show setFirst key m (e :: r) = m :: r by simp [setFirst, he]]
        by_cases hs : (entryIdString e == s) = true
        · rw [matchCount_cons_pos e r s hs, matchCount_cons_pos m r s (by rw [hm, ← he2]; exact hs)]
        · rw [matchCount_cons_neg e r s hs, matchCount_cons_neg m r s (by rw [hm, ← he2]; exact hs)]
      · rw [show setFirst key m (e :: r) = e :: setFirst key m r by simp [setFirst, he]]
        by_cases hs : (entryIdString e == s) = true
        · rw [matchCount_cons_pos e _ s hs, matchCount_cons_pos e r s hs, ih s]
        · rw [matchCount_cons_neg e _ s hs, matchCount_cons_neg e r s hs, ih s]

lemma upsert_not_contains (key : String) (m : JVal) :
    ∀ l : List JVal, containsKey l key = false → upsert key m l = l ++ [m] := by
  intro l
  induction l with
  | nil => intro _; rfl
  | cons e r ih =>
      intro h
      simp only [containsKey, List.any_cons, Bool.or_eq_false_iff] at h
      rw [show upsert key m (e :: r) = e :: upsert key m r by simp [upsert, h.1]]
      rw [ih (by simp [containsKey, h.2])]
      rfl

lemma matchCount_append_one (l : List JVal) (m : JVal) (s : String) :
    matchCount (l ++ [m]) s
      = matchCount l s + (if entryIdString m == s then 1 else 0) := by
  by_cases h : (entryIdString m == s) = true <;>
    simp [matchCount, List.filter_append, List.filter_cons, h]

lemma not_contains_matchCount_zero (k : String) :
    ∀ l : List JVal, containsKey l k = false → matchCount l k = 0 := by
  intro l
  induction l with
  | nil => intro _; rfl
  | cons e r ih =>
      intro h
      simp only [containsKey, List.any_cons, Bool.or_eq_false_iff] at h
      rw [matchCount_cons_neg e r k (by simp [h.1]), ih (by simp [containsKey, h.2])]

lemma upsert_matchCount_le (key : String) (m : JVal) (l : List JVal) (s : String)
    (hm : entryIdString m = key) :
    matchCount (upsert key m l) s ≤ max (matchCount l s) 1 := by
  by_cases hc : containsKey l key = true
  · rw [upsert_eq_setFirst key m l hc, matchCount_setFirst key m hm l s]
    exact Nat.le_max_left _ _
  · rw [upsert_not_contains key m l (by simpa using hc), matchCount_append_one]
    by_cases hs : (entryIdString m == s) = true
    · have hks : key = s := by rw [← hm]; simpa using hs
      have h0 : matchCount l s = 0 := by
        rw [← hks]
        exact not_contains_matchCount_zero key l (by simpa using hc)
      simp [hs, h0]
    · simp [hs]

lemma applyOps_matchCount_le :
    ∀ (ops : List (String × JVal)) (l : List JVal) (s : String), wellKeyed ops →
      matchCount (applyOps ops l) s ≤ max (matchCount l s) 1 := by
  intro ops
  induction ops with
  | nil => intro l s _; exact Nat.le_max_left _ _
  | cons km rest ih =>
      intro l s hwk
      have hm : entryIdString km.2 = km.1 := hwk km (List.mem_cons_self _ _)
      rw [applyOps_cons2]
      have h1 := ih (upsert km.1 km.2 l) s (fun km2 h2 => hwk km2 (List.mem_cons_of_mem _ h2))
      have h2 := upsert_matchCount_le km.1 km.2 l s hm
      omega

/-- C2: reconciliation is idempotent on the list — running
`addToDatabase` again on the first run's output document with the same
presets yields the same document with only `result.version` replaced
(in particular the same list contents and count), and a run never
creates a second entry for an id that had at most one entry in the
baseline. -/
theorem c2_reconciliation_idempotent :
    ∀ (tmpl : JObj) (dbObj : JVal) (profiles : List JVal) (v1 v2 : String) (db1 : JVal),
      addToDatabaseRun tmpl dbObj profiles v1 = Except.ok db1 →
      addToDatabaseRun tmpl db1 profiles v2 = Except.ok (setResultVersion db1 v2)
      ∧ getList (setResultVersion db1 v2) = getList db1
      ∧ (∀ l0 l1 s, getList dbObj = Except.ok l0 → getList db1 = Except.ok l1 →
          matchCount l1 s ≤ max (matchCount l0 s) 1) := by
  intro tmpl dbObj profiles v1 v2 db1 hrun
  obtain ⟨dbFields, resFields, l, rfl, hres, hlist, hdb1⟩ :=
    addToDatabaseRun_ok_shape tmpl dbObj profiles v1 db1 hrun
  subst hdb1
  have hwk : wellKeyed (profiles.filterMap (opOf tmpl)) := wellKeyed_opOf tmpl profiles
  have e1 : profiles.foldl (applyProfile tmpl) l.toList
      = applyOps (profiles.filterMap (opOf tmpl)) l.toList :=
    foldl_applyProfile_eq_applyOps tmpl profiles l.toList
  have hidem : profiles.foldl (applyProfile tmpl)
      (profiles.foldl (applyProfile tmpl) l.toList)
      = profiles.foldl (applyProfile tmpl) l.toList := by
    calc profiles.foldl (applyProfile tmpl) (profiles.foldl (applyProfile tmpl) l.toList)
        = applyOps (profiles.filterMap (opOf tmpl))
            (applyOps (profiles.filterMap (opOf tmpl)) l.toList) := by
          rw [foldl_applyProfile_eq_applyOps tmpl profiles, e1]
      _ = applyOps (profiles.filterMap (opOf tmpl)) l.toList :=
          applyOps_idem _ _ hwk
      _ = profiles.foldl (applyProfile tmpl) l.toList := e1.symm
  have hres2 : lookupField (updateField dbFields "result" (JVal.obj
      (updateField (updateField (updateField resFields "list"
        (JVal.arr (JArr.ofList (profiles.foldl (applyProfile tmpl) l.toList))))
        "count" (JVal.num (profiles.foldl (applyProfile tmpl) l.toList).length))
        "version" (JVal.str v1)))) "result"
      = some (JVal.obj (updateField (updateField (updateField resFields "list"
        (JVal.arr (JArr.ofList (profiles.foldl (applyProfile tmpl) l.toList))))
        "count" (JVal.num (profiles.foldl (applyProfile tmpl) l.toList).length))
        "version" (JVal.str v1))) := lookupField_updateField_self _ _ _
  have hlist2 : lookupField (updateField (updateField (updateField resFields "list"
        (JVal.arr (JArr.ofList (profiles.foldl (applyProfile tmpl) l.toList))))
        "count" (JVal.num (profiles.foldl (applyProfile tmpl) l.toList).length))
        "version" (JVal.str v1)) "list"
      = some (JVal.arr (JArr.ofList (profiles.foldl (applyProfile tmpl) l.toList))) := by
    rw [lookupField_updateField_ne _ _ _ _ (by decide : ("version" : String) ≠ "list"),
      lookupField_updateField_ne _ _ _ _ (by decide : ("count" : String) ≠ "list"),
      lookupField_updateField_self]
  have hcount2 : lookupField (updateField (updateField (updateField resFields "list"
        (JVal.arr (JArr.ofList (profiles.foldl (applyProfile tmpl) l.toList))))
        "count" (JVal.num (profiles.foldl (applyProfile tmpl) l.toList).length))
        "version" (JVal.str v1)) "count"
      = some (JVal.num (profiles.foldl (applyProfile tmpl) l.toList).length) := by
    rw [lookupField_updateField_ne _ _ _ _ (by decide : ("version" : String) ≠ "count"),
      lookupField_updateField_self]
  have hfold2 : profiles.foldl (applyProfile tmpl)
      (JArr.ofList (profiles.foldl (applyProfile tmpl) l.toList)).toList
      = profiles.foldl (applyProfile tmpl) l.toList := by
    rw [JArr.toList_ofList]
    exact hidem
  have hrun2 := addToDatabaseRun_ok_eq tmpl profiles v2 _ _ _ hres2 hlist2
  rw [hfold2] at hrun2
  rw [updateField_self _ _ _ hlist2] at hrun2
  rw [updateField_self _ _ _ hcount2] at hrun2
  have hsetv : setResultVersion (JVal.obj (updateField dbFields "result" (JVal.obj
      (updateField (updateField (updateField resFields "list"
        (JVal.arr (JArr.ofList (profiles.foldl (applyProfile tmpl) l.toList))))
        "count" (JVal.num (profiles.foldl (applyProfile tmpl) l.toList).length))
        "version" (JVal.str v1))))) v2
      = JVal.obj (updateField (updateField dbFields "result" (JVal.obj
        (updateField (updateField (updateField resFields "list"
          (JVal.arr (JArr.ofList (profiles.foldl (applyProfile tmpl) l.toList))))
          "count" (JVal.num (profiles.foldl (applyProfile tmpl) l.toList).length))
          "version" (JVal.str v1)))) "result" (JVal.obj
        (updateField (updateField (updateField (updateField resFields "list"
          (JVal.arr (JArr.ofList (profiles.foldl (applyProfile tmpl) l.toList))))
          "count" (JVal.num (profiles.foldl (applyProfile tmpl) l.toList).length))
          "version" (JVal.str v1)) "version" (JVal.str v2)))) := by
    simp only [setResultVersion, hres2]
  refine ⟨?_, ?_, ?_⟩
  · rw [hsetv]
    exact hrun2
  · rw [hsetv]
    have hga : getList (JVal.obj (updateField (updateField dbFields "result" (JVal.obj
        (updateField (updateField (updateField resFields "list"
          (JVal.arr (JArr.ofList (profiles.foldl (applyProfile tmpl) l.toList))))
          "count" (JVal.num (profiles.foldl (applyProfile tmpl) l.toList).length))
          "version" (JVal.str v1)))) "result" (JVal.obj
        (updateField (updateField (updateField (updateField resFields "list"
          (JVal.arr (JArr.ofList (profiles.foldl (applyProfile tmpl) l.toList))))
          "count" (JVal.num (profiles.foldl (applyProfile tmpl) l.toList).length))
          "version" (JVal.str v1)) "version" (JVal.str v2)))))
        = Except.ok (JArr.ofList (profiles.foldl (applyProfile tmpl) l.toList)).toList := by
      unfold getList
      rw [show ∀ o : JObj, getProp (JVal.obj o) "result" = (lookupField o "result").getD JVal.undef
        from fun o => rfl]
      rw [lookupField_updateField_self]
      rw [show ∀ o : JObj, getProp ((some (JVal.obj o)).getD JVal.undef) "list"
          = (lookupField o "list").getD JVal.undef from fun o => rfl]
      rw [lookupField_updateField_ne _ _ _ _ (by decide : ("version" : String) ≠ "list"),
        hlist2]
      rfl
    have hgb : getList (JVal.obj (updateField dbFields "result" (JVal.obj
        (updateField (updateField (updateField resFields "list"
          (JVal.arr (JArr.ofList (profiles.foldl (applyProfile tmpl) l.toList))))
          "count" (JVal.num (profiles.foldl (applyProfile tmpl) l.toList).length))
          "version" (JVal.str v1)))))
        = Except.ok (JArr.ofList (profiles.foldl (applyProfile tmpl) l.toList)).toList := by
      unfold getList
      rw [show ∀ o : JObj, getProp (JVal.obj o) "result" = (lookupField o "result").getD JVal.undef
        from fun o => rfl]
      rw [hres2]
      rw [show ∀ o : JObj, getProp ((some (JVal.obj o)).getD JVal.undef) "list"
          = (lookupField o "list").getD JVal.undef from fun o => rfl]
      rw [hlist2]
      rfl
    rw [hga, hgb]
  · intro l0 l1 s hl0 hl1
    have h0 : l0 = l.toList := by
      have h2 := (getList_obj_eq dbFields resFields l hres hlist).symm.trans hl0
      injection h2 with h3
      exact h3.symm
    have hgb : getList (JVal.obj (updateField dbFields "result" (JVal.obj
        (updateField (updateField (updateField resFields "list"
          (JVal.arr (JArr.ofList (profiles.foldl (applyProfile tmpl) l.toList))))
          "count" (JVal.num (profiles.foldl (applyProfile tmpl) l.toList).length))
          "version" (JVal.str v1)))))
        = Except.ok (JArr.ofList (profiles.foldl (applyProfile tmpl) l.toList)).toList := by
      unfold getList
      rw [show ∀ o : JObj, getProp (JVal.obj o) "result" = (lookupField o "result").getD JVal.undef
        from fun o => rfl]
      rw [hres2]
      rw [show ∀ o : JObj, getProp ((some (JVal.obj o)).getD JVal.undef) "list"
          = (lookupField o "list").getD JVal.undef from fun o => rfl]
      rw [hlist2]
      rfl
    have h1 : l1 = profiles.foldl (applyProfile tmpl) l.toList := by
      have h2 := hgb.symm.trans hl1
      injection h2 with h3
      rw [JArr.toList_ofList] at h3
      exact h3.symm
    subst h0 h1
    rw [e1]
    exact applyOps_matchCount_le (profiles.filterMap (opOf tmpl)) l.toList s hwk

def c2db : JVal :=
  JVal.obj (JObj.cons "result"
    (JVal.obj (JObj.cons "list" (JVal.arr JArr.nil)
      (JObj.cons "count" (JVal.num 0)
      (JObj.cons "version" (JVal.str "0") JObj.nil)))) JObj.nil)

def c2profile : JVal :=
  JVal.obj (JObj.cons "filament_notes"
    (arr1 (JVal.str "\x7b\"id\":\"11111\",\"vendor\":\"V\",\"type\":\"T\",\"name\":\"N\"\x7d"))
    JObj.nil)

def c2db1 : JVal :=
  match addToDatabaseRun JObj.nil c2db [c2profile] "1" with
  | Except.ok d => d
  | Except.error _ => JVal.null

/-- C2 witness: for the concrete empty baseline and one preset, the
second run on the first run's output yields that output with only the
version replaced. -/
theorem c2_reconciliation_witness :
    addToDatabaseRun JObj.nil c2db1 [c2profile] "2" = Except.ok (setResultVersion c2db1 "2") :=
  (c2_reconciliation_idempotent JObj.nil c2db [c2profile] "1" "2" c2db1 rfl).1
